import Mathlib

/- Verification of the profile-import normalization pipeline and the AI-response
extraction pipeline of the CovResu resume builder (src/app.py). Pure functions of
the source are translated directly; the HTTP, file-system and HTML boundaries
(requests, zipfile, pandas.read_csv, BeautifulSoup, json) enter as explicit inputs
or as executable models defined here. -/

set_option maxRecDepth 8000

/-- Left brace character, written via escape. -/
def lbrace : Char := '\x7b'

/-- Right brace character, written via escape. -/
def rbrace : Char := '\x7d'

/-- JSON whitespace characters accepted by the decoder. -/
def isJWs (c : Char) : Bool := c = ' ' || c = '\t' || c = '\n' || c = '\r'

/-- Skip leading JSON whitespace. -/
def skipWs (cs : List Char) : List Char := cs.dropWhile isJWs

/-- JSON values, as decoded by the json library. -/
inductive Json where
  | null
  | bool (b : Bool)
  | num (n : Int)
  | str (s : String)
  | arr (xs : List Json)
  | obj (kvs : List (String × Json))

/-- Decimal digit to character. -/
def digitCh : Nat → Char
  | 0 => '0' | 1 => '1' | 2 => '2' | 3 => '3' | 4 => '4'
  | 5 => '5' | 6 => '6' | 7 => '7' | 8 => '8' | 9 => '9'
  | _ => '*'

/-- Character to decimal digit value. -/
def digitVal (c : Char) : Nat := c.toNat - 48

/-- Fuel-indexed decimal rendering of a natural number. -/
def toDecAux : Nat → Nat → List Char
  | 0, _ => []
  | fuel+1, n => if n < 10 then [digitCh n] else toDecAux fuel (n / 10) ++ [digitCh (n % 10)]

/-- Decimal rendering of a natural number. -/
def natToDec (n : Nat) : List Char := toDecAux (n + 1) n

/-- Decimal rendering of an integer. -/
def renderInt (n : Int) : List Char :=
  if n < 0 then '-' :: natToDec n.natAbs else natToDec n.toNat

/-- Escape one character for a JSON string literal. -/
def escChar (c : Char) : List Char :=
  if c = '"' then ['\\', '"'] else if c = '\\' then ['\\', '\\'] else [c]

/-- Escape a character sequence for a JSON string literal. -/
def escStr : List Char → List Char
  | [] => []
  | c :: t => escChar c ++ escStr t

mutual
/-- Canonical compact textual form of a JSON value. -/
def renderV : Json → List Char
  | .null => (['n', 'u', 'l', 'l'] : List Char)
  | .bool true => (['t', 'r', 'u', 'e'] : List Char)
  | .bool false => (['f', 'a', 'l', 's', 'e'] : List Char)
  | .num n => renderInt n
  | .str s => '"' :: (escStr s.data ++ ['"'])
  | .arr xs => '[' :: (renderItems xs ++ [']'])
  | .obj kvs => lbrace :: (renderFields kvs ++ [rbrace])

/-- Comma-separated rendering of array elements. -/
def renderItems : List Json → List Char
  | [] => []
  | [x] => renderV x
  | x :: y :: t => renderV x ++ ',' :: renderItems (y :: t)

/-- Comma-separated rendering of object members. -/
def renderFields : List (String × Json) → List Char
  | [] => []
  | [(k, v)] => '"' :: (escStr k.data ++ '"' :: ':' :: renderV v)
  | (k, v) :: p :: t =>
      ('"' :: (escStr k.data ++ '"' :: ':' :: renderV v)) ++ ',' :: renderFields (p :: t)
end

mutual
/-- Size measure bounding the parsing fuel a value needs. -/
def jsize : Json → Nat
  | .null => 1
  | .bool _ => 1
  | .num _ => 1
  | .str _ => 1
  | .arr xs => 1 + jsizeL xs
  | .obj kvs => 1 + jsizeKV kvs

/-- Size measure for array element lists. -/
def jsizeL : List Json → Nat
  | [] => 1
  | x :: t => 1 + max (jsize x) (jsizeL t)

/-- Size measure for object member lists. -/
def jsizeKV : List (String × Json) → Nat
  | [] => 1
  | (_, v) :: t => 1 + max (jsize v) (jsizeKV t)
end

/-- Unescape a character following a backslash in a JSON string literal. -/
def unescCh (c : Char) : Option Char :=
  if c = '"' then some '"'
  else if c = '\\' then some '\\'
  else if c = '/' then some '/'
  else if c = 'n' then some '\n'
  else if c = 't' then some '\t'
  else if c = 'r' then some '\r'
  else if c = 'b' then some '\x08'
  else if c = 'f' then some '\x0c'
  else none

/-- Parse the body of a JSON string literal, after the opening quote. -/
def parseStrBody : List Char → Except String (List Char × List Char)
  | [] => .error "Unterminated string"
  | c :: rest =>
    if c = '"' then .ok ([], rest)
    else if c = '\\' then
      match rest with
      | [] => .error "Unterminated string"
      | d :: rest' =>
        match unescCh d with
        | some ch => (parseStrBody rest').map (fun p => (ch :: p.1, p.2))
        | none => .error "Invalid string escape"
    else (parseStrBody rest).map (fun p => (c :: p.1, p.2))

/-- Fold decimal digit characters into a natural number. -/
def natFromDigits (ds : List Char) : Nat := ds.foldl (fun a c => 10 * a + digitVal c) 0

/-- Parse a nonempty run of decimal digits. -/
def parseNatNum (cs : List Char) : Except String (Nat × List Char) :=
  let ds := cs.takeWhile Char.isDigit
  if ds.isEmpty then .error "Expecting value" else .ok (natFromDigits ds, cs.dropWhile Char.isDigit)

/-- Parse a JSON integer literal, with optional leading minus sign. -/
def parseNumber (cs : List Char) : Except String (Json × List Char) :=
  match cs with
  | [] => .error "Expecting value"
  | c :: rest =>
    if c = '-' then (parseNatNum rest).map (fun p => (.num (-(p.1 : Int)), p.2))
    else (parseNatNum (c :: rest)).map (fun p => (.num (p.1 : Int), p.2))

/-- Expect a fixed literal continuation, returning the given value. -/
def expectLit (lit : List Char) (v : Json) (cs : List Char) : Except String (Json × List Char) :=
  if lit.isPrefixOf cs then .ok (v, cs.drop lit.length) else .error "Expecting value"

/-- Kinds of JSON values, distinguished by the first significant character. -/
inductive VKind where
  | knull | ktrue | kfalse | kstr | karr | kobj | knum | kbad
deriving DecidableEq

/-- Classify the first significant character of a JSON value. -/
def headKind (c : Char) : VKind :=
  if c = 'n' then .knull
  else if c = 't' then .ktrue
  else if c = 'f' then .kfalse
  else if c = '"' then .kstr
  else if c = '[' then .karr
  else if c = lbrace then .kobj
  else if c = '-' || c.isDigit then .knum
  else .kbad

mutual
/-- Fuel-indexed JSON value decoder. -/
def parseV : Nat → List Char → Except String (Json × List Char)
  | 0, _ => .error "Fuel exhausted"
  | fuel+1, cs =>
    match skipWs cs with
    | [] => .error "Expecting value"
    | c :: rest =>
      match headKind c with
      | .knull => expectLit ['u', 'l', 'l'] .null rest
      | .ktrue => expectLit ['r', 'u', 'e'] (.bool true) rest
      | .kfalse => expectLit ['a', 'l', 's', 'e'] (.bool false) rest
      | .kstr => (parseStrBody rest).map (fun p => (.str ⟨p.1⟩, p.2))
      | .karr => (parseItems fuel rest).map (fun p => (.arr p.1, p.2))
      | .kobj => (parseFields fuel rest).map (fun p => (.obj p.1, p.2))
      | .knum => parseNumber (c :: rest)
      | .kbad => .error "Expecting value"

/-- Fuel-indexed decoder for array elements, after the opening bracket. -/
def parseItems : Nat → List Char → Except String (List Json × List Char)
  | 0, _ => .error "Fuel exhausted"
  | fuel+1, cs =>
    match skipWs cs with
    | [] => .error "Expecting value"
    | c :: rest =>
      if c = ']' then .ok ([], rest)
      else
        match parseV fuel (c :: rest) with
        | .error e => .error e
        | .ok (v, r) =>
          match skipWs r with
          | [] => .error "Expecting delimiter"
          | d :: r' =>
            if d = ',' then (parseItems fuel r').map (fun p => (v :: p.1, p.2))
            else if d = ']' then .ok ([v], r')
            else .error "Expecting delimiter"

/-- Fuel-indexed decoder for object members, after the opening brace. -/
def parseFields : Nat → List Char → Except String (List (String × Json) × List Char)
  | 0, _ => .error "Fuel exhausted"
  | fuel+1, cs =>
    match skipWs cs with
    | [] => .error "Expecting property name"
    | c :: rest =>
      if c = rbrace then .ok ([], rest)
      else if c = '"' then
        match parseStrBody rest with
        | .error e => .error e
        | .ok (k, r) =>
          match skipWs r with
          | [] => .error "Expecting colon"
          | d :: r' =>
            if d = ':' then
              match parseV fuel r' with
              | .error e => .error e
              | .ok (v, r2) =>
                match skipWs r2 with
                | [] => .error "Expecting delimiter"
                | d2 :: r3 =>
                  if d2 = ',' then (parseFields fuel r3).map (fun p => ((⟨k⟩, v) :: p.1, p.2))
                  else if d2 = rbrace then .ok ([(⟨k⟩, v)], r3)
                  else .error "Expecting delimiter"
            else .error "Expecting colon"
      else .error "Expecting property name"
end

/-- Decode a whole character sequence as one JSON value, as json.loads does. -/
def jsonLoadsL (cs : List Char) : Except String Json :=
  match parseV (cs.length + 1) cs with
  | .error e => .error e
  | .ok (v, rest) => if skipWs rest = [] then .ok v else .error "Extra data"

/-- The continuation after a rendered value must not begin with a digit. -/
def restOk : List Char → Bool
  | [] => true
  | c :: _ => !c.isDigit

/-- Decode a string as one JSON value. -/
def jsonLoads (s : String) : Except String Json := jsonLoadsL s.data

/-- Character is not an opening bracket. -/
def notOpen (c : Char) : Bool := !(c = '[')

/-- Character is not a closing bracket. -/
def notClose (c : Char) : Bool := !(c = ']')

/-- The greedy bracket slice: from the first opening bracket to the last closing
bracket at or after it, modelling the regex search the extractor performs. -/
def bracketSlice (cs : List Char) : Option (List Char) :=
  if ((cs.dropWhile notOpen).reverse.dropWhile notClose).reverse = [] then none
  else some ((cs.dropWhile notOpen).reverse.dropWhile notClose).reverse

/-- Python str.strip with an explicit set of characters to remove from both ends. -/
def pyStripChars (chars : List Char) (s : String) : String :=
  ⟨((s.data.dropWhile (fun c => chars.contains c)).reverse.dropWhile
      (fun c => chars.contains c)).reverse⟩

/-- Whitespace characters removed by Python str.strip(). -/
def pyWs : List Char := [' ', '\t', '\n', '\r', '\x0c', '\x0b']

/-- Python str.strip() with no arguments. -/
def pyStrip (s : String) : String := pyStripChars pyWs s

/-- Lower-case one ASCII character. -/
def lowerCh (c : Char) : Char :=
  if 'A' ≤ c ∧ c ≤ 'Z' then Char.ofNat (c.toNat + 32) else c

/-- Python str.lower for ASCII text. -/
def pyLower (s : String) : String := ⟨s.data.map lowerCh⟩

/-- Python str.endswith. -/
def pyEndsWith (s suffix : String) : Bool := suffix.data.isSuffixOf s.data

/-- Whether needle occurs as a contiguous subsequence of hay. -/
def containsSeq (needle : List Char) : List Char → Bool
  | [] => needle.isEmpty
  | c :: t => needle.isPrefixOf (c :: t) || containsSeq needle t

/-- Python substring membership: needle in hay. -/
def pyContains (hay needle : String) : Bool := containsSeq needle.data hay.data

/-- Split on any of the given single characters, keeping empty fragments,
as re.split with a character class does. -/
def splitCharsL (delims : List Char) : List Char → List (List Char)
  | [] => [[]]
  | c :: rest =>
    match splitCharsL delims rest with
    | [] => [[]]
    | h :: t => if delims.contains c then [] :: h :: t else (c :: h) :: t

/-- String-level split on a set of single-character delimiters. -/
def pySplitChars (delims : List Char) (s : String) : List String :=
  (splitCharsL delims s.data).map (fun l => ⟨l⟩)

/-- Remove every occurrence of a nonempty pattern, fuel-indexed. -/
def removeAllAux : Nat → List Char → List Char → List Char
  | 0, _, cs => cs
  | _+1, _, [] => []
  | n+1, p, c :: rest =>
    if !p.isEmpty && p.isPrefixOf (c :: rest) then removeAllAux n p ((c :: rest).drop p.length)
    else c :: removeAllAux n p rest

/-- Python s.replace(pat, ''), removing every occurrence of pat. -/
def removeAll (p cs : List Char) : List Char := removeAllAux cs.length p cs

/-- Possible outcomes of the HTTP POST to the Ollama endpoint, as seen by query_ollama:
a connection error, some other raised exception, or a reply whose raise_for_status
step may carry an error and whose body may fail to decode as JSON. The decoded body
is a Json value; a reply object is Json.obj. -/
inductive PostOutcome where
  | connectionError
  | raised (msg : String)
  | reply (statusError : Option String) (body : Except String Json)

/-- The fixed sentinel returned when the Ollama endpoint is unreachable. -/
def ollamaConnectMsg : String := "Error: Could not connect to Ollama. Make sure Ollama is running."

/-- Python dict.get on a decoded JSON object, keys assumed unique as in a dict. -/
def jget (kvs : List (String × Json)) (k : String) : Option Json :=
  (kvs.find? (fun p => p.1 == k)).map (fun p => p.2)

/-- The AttributeError text Python raises when .get is called on a non-dict value. -/
def pyNoGetAttr (j : Json) : String :=
  (match j with
    | .null => "NoneType"
    | .bool _ => "bool"
    | .num _ => "int"
    | .str _ => "str"
    | .arr _ => "list"
    | .obj _ => "dict") ++ " object has no attribute get"

/-- Model of query_ollama from app.py lines 27-46: sends the prompt and maps each
failure mode to a returned string, never raising. The HTTP boundary is the input. -/
def query_ollama : PostOutcome → Json
  | .connectionError => .str ollamaConnectMsg
  | .raised m => .str ("Error: " ++ m)
  | .reply (some m) _ => .str ("Error: " ++ m)
  | .reply none (.error m) => .str ("Error: " ++ m)
  | .reply none (.ok body) =>
    match body with
    | .obj kvs => (jget kvs "response").getD (.str "")
    | other => .str ("Error: " ++ pyNoGetAttr other)

/-- Model of the JSON-extraction part of tailor_resume_experience, app.py lines 92-105.
The raw model output is the input; the result pairs the returned value with the
error report (decode error message and raw text) shown when both decodes fail. -/
def tailor_resume_experience (experience_list : Json) (response_text : String) :
    Json × Option (String × String) :=
  match bracketSlice response_text.data with
  | some js =>
    match jsonLoadsL js with
    | .ok v => (v, none)
    | .error e => (experience_list, some (e, response_text))
  | none =>
    let clean := pyStrip ⟨removeAll "```".data (removeAll "```json".data response_text.data)⟩
    match jsonLoadsL clean.data with
    | .ok v => (v, none)
    | .error e => (experience_list, some (e, response_text))

/-- One work-experience entry of the CovRes record shape. -/
structure ExpEntry where
  title : String
  company : String
  duration : String
  description : String
deriving DecidableEq

/-- One education entry of the CovRes record shape. -/
structure EduEntry where
  degree : String
  institution : String
  year : String
deriving DecidableEq

/-- One project entry of the CovRes record shape. -/
structure ProjEntry where
  title : String
  tech : String
  description : String
deriving DecidableEq

/-- The dict built by parse_linkedin_export and fetch_public_linkedin. The err field
models the optional _error key: none means the key is absent. parse_linkedin_export
never adds the key; fetch_public_linkedin adds it on failure. The projects field is
present in the export dict and absent from the fetch dict, which this model fills
with the empty list. -/
structure Parsed where
  name : String := ""
  email : String := ""
  phone : String := ""
  current_role : String := ""
  summary : String := ""
  skills : List String := []
  experience : List ExpEntry := []
  projects : List ProjEntry := []
  education : List EduEntry := []
  err : Option String := none
deriving DecidableEq

/-- The empty-shaped defaults both normalizer paths start from. -/
def emptyParsed : Parsed := {}

/-- A decoded tabular file: header columns and rows of string cells. Models the
DataFrame pandas.read_csv builds from simple comma-separated text without quoting;
cells are kept as text. -/
structure Table where
  cols : List String
  rows : List (List String)
deriving DecidableEq

/-- Cell lookup by column name in a row, none when the column is absent. -/
def Table.cell (t : Table) (row : List String) (c : String) : Option String :=
  (t.cols.findIdx? (fun x => x == c)).bind (fun i => row.get? i)

/-- Column membership, Python: c in df.columns. -/
def Table.hasCol (t : Table) (c : String) : Bool := t.cols.contains c

/-- Model of pandas.read_csv on decoded text: first nonempty line is the header,
each later nonempty line is split on commas; empty input is a parse error. -/
def csvParse (s : String) : Except Unit Table :=
  match (pySplitChars ['\n'] s).filter (fun l => l ≠ "") with
  | [] => .error ()
  | h :: t => .ok ⟨pySplitChars [','] h, t.map (pySplitChars [','])⟩

/-- Python or-chain over row lookups: the first column in cands that exists and has
a nonempty cell wins, else the empty string - r.get(a) or r.get(b) or ''. -/
def cellOr (t : Table) (row : List String) : List String → String
  | [] => ""
  | c :: rest =>
    match t.cell row c with
    | some v => if v = "" then cellOr t row rest else v
    | none => cellOr t row rest

/-- The duration string formed for one experience row, app.py line 265:
f-string start - end with str.strip(' -') applied. -/
def formDuration (start finish : String) : String :=
  pyStripChars [' ', '-'] (start ++ " - " ++ finish)

/-- One experience row mapped by the positions branch, app.py lines 259-271. -/
def expRowOf (t : Table) (row : List String) : ExpEntry :=
  { title := cellOr t row ["Title", "Position", "Job Title"],
    company := cellOr t row ["Company", "Organization"],
    duration := formDuration (cellOr t row ["Start Date", "Start"])
      (cellOr t row ["End Date", "End"]),
    description := cellOr t row ["Description", "Summary"] }

/-- One education row mapped by the education branch, app.py lines 273-278. -/
def eduRowOf (t : Table) (row : List String) : EduEntry :=
  { degree := cellOr t row ["Degree", "Title"],
    institution := cellOr t row ["School", "Institution", "Organization"],
    year := cellOr t row ["End Date", "Year"] }

/-- A member file of the uploaded ZIP: its name and its decoded text content. -/
structure Member where
  name : String
  raw : String
deriving DecidableEq

/-- Content of the uploaded file: a ZIP archive with members, or plain text. -/
inductive FileBytes where
  | zipBytes (members : List Member)
  | textBytes (content : String)

/-- The uploaded file-like object: its name and its content. -/
structure Uploaded where
  name : String
  bytes : FileBytes

/-- State of the parse: ok carries the updated record, error carries the record at
the moment an exception was raised together with the exception text. -/
abbrev PStep := Except (Parsed × String) Parsed

/-- Python truthiness of a decoded JSON value. -/
def jTruthy : Json → Bool
  | .null => false
  | .bool b => b
  | .num n => !(n == 0)
  | .str s => !(s == "")
  | .arr xs => !xs.isEmpty
  | .obj kvs => !kvs.isEmpty

/-- The model reads JSON fields the code treats as text as strings; a non-string
value yields the empty string. -/
def jAsStr : Json → String
  | .str s => s
  | _ => ""

/-- First truthy value of a Python or-chain over optional lookups. -/
def firstTruthyJ : List (Option Json) → Option Json
  | [] => none
  | o :: rest =>
    match o with
    | some v => if jTruthy v then some v else firstTruthyJ rest
    | none => firstTruthyJ rest

/-- Mapping of the profile JSON member inside a ZIP, app.py lines 230-237. -/
def applyProfileJson (kvs : List (String × Json)) (p : Parsed) : Parsed :=
  let fn := jAsStr ((firstTruthyJ [jget kvs "firstName", jget kvs "localizedFirstName"]).getD (.str ""))
  let ln := jAsStr ((firstTruthyJ [jget kvs "lastName", jget kvs "localizedLastName"]).getD (.str ""))
  let joined := pyStrip (fn ++ " " ++ ln)
  let name1 :=
    if joined ≠ "" then joined
    else
      match jget kvs "fullName" with
      | some v => if jTruthy v then jAsStr v else p.name
      | none => p.name
  let summary1 :=
    match jget kvs "summary" with
    | some v => jAsStr v
    | none => p.summary
  { p with name := name1, summary := summary1 }

/-- The lower-cased contact column names recognized by the contact branch. -/
def contactCols : List String := ["full name", "email address", "headline"]

/-- The email synonym loop of app.py lines 252-254: each existing column in list
order overwrites the email in turn - the loop body has no break. -/
def emailSynStep (t : Table) (row : List String) (p : Parsed) : Parsed :=
  ["Email Address", "Email", "email address", "email"].foldl
    (fun q ec => if t.hasCol ec then { q with email := (t.cell row ec).getD q.email } else q) p

/-- The contact branch, app.py lines 248-256. df.iloc[0] on an empty frame raises. -/
def contactStep (t : Table) (p : Parsed) : PStep :=
  if t.cols.any (fun c => contactCols.contains (pyLower c)) then
    match t.rows.head? with
    | none => .error (p, "single positional indexer is out-of-bounds")
    | some row =>
      let p1 := if t.hasCol "Full Name" then { p with name := (t.cell row "Full Name").getD p.name }
        else p
      let p2 := emailSynStep t row p1
      .ok (if t.hasCol "Headline" then { p2 with current_role := (t.cell row "Headline").getD p2.current_role }
        else p2)
  else .ok p

/-- The positions branch, app.py lines 258-271, keyed on the member file name. -/
def positionsStep (fname : String) (t : Table) (p : Parsed) : Parsed :=
  if ["position", "positions", "experience"].any (fun k => pyContains fname k) then
    { p with experience := p.experience ++ t.rows.map (expRowOf t) }
  else p

/-- The education branch, app.py lines 272-278. -/
def educationStep (fname : String) (t : Table) (p : Parsed) : Parsed :=
  if pyContains fname "education" then
    { p with education := p.education ++ t.rows.map (eduRowOf t) }
  else p

/-- Processing of one CSV member, app.py lines 240-278: a read_csv failure skips the
file, then the contact, positions and education branches run in order. -/
def processCsvMember (m : Member) (p : Parsed) : PStep :=
  match csvParse m.raw with
  | .error _ => .ok p
  | .ok df =>
    match contactStep df p with
    | .error pe => .error pe
    | .ok p1 => .ok (educationStep (pyLower m.name) df (positionsStep (pyLower m.name) df p1))

/-- Left-to-right processing of all CSV members. -/
def processCsvList : List Member → Parsed → PStep
  | [], p => .ok p
  | m :: rest, p =>
    match processCsvMember m p with
    | .error pe => .error pe
    | .ok p1 => processCsvList rest p1

/-- The email fallback scan of one file, app.py lines 282-291: the first column
whose lower-cased name contains email supplies the first row value. -/
def emailFallbackFile (m : Member) (p : Parsed) : PStep :=
  match csvParse m.raw with
  | .error _ => .ok p
  | .ok df =>
    match df.cols.find? (fun c => pyContains (pyLower c) "email") with
    | none => .ok p
    | some c =>
      match df.rows.head? with
      | none => .error (p, "single positional indexer is out-of-bounds")
      | some row => .ok { p with email := (df.cell row c).getD p.email }

/-- The email fallback over all CSV files; the outer loop has no break. -/
def emailFallbackList : List Member → Parsed → PStep
  | [], p => .ok p
  | m :: rest, p =>
    match emailFallbackFile m p with
    | .error pe => .error pe
    | .ok p1 => emailFallbackList rest p1

/-- Member selection for the profile JSON inside the ZIP, app.py line 227. -/
def zipIsProfileJson (m : Member) : Bool :=
  pyEndsWith (pyLower m.name) ".json" &&
    (pyContains (pyLower m.name) "profile" || pyContains (pyLower m.name) "member")

/-- Member selection for CSV files inside the ZIP, app.py line 228. -/
def zipIsCsv (m : Member) : Bool := pyEndsWith (pyLower m.name) ".csv"

/-- The profile JSON step of the ZIP branch, app.py lines 230-237: the first member
whose name matches is decoded; a decode failure or a non-object value raises. -/
def zipProfileStep (members : List Member) (p : Parsed) : PStep :=
  match (members.filter zipIsProfileJson).head? with
  | none => .ok p
  | some m =>
    match jsonLoads m.raw with
    | .error e => .error (p, e)
    | .ok (.obj kvs) => .ok (applyProfileJson kvs p)
    | .ok other => .error (p, pyNoGetAttr other)

/-- The ZIP branch of parse_linkedin_export, app.py lines 223-291. -/
def zipPath (members : List Member) (p : Parsed) : PStep :=
  match zipProfileStep members p with
  | .error pe => .error pe
  | .ok p1 =>
    match processCsvList (members.filter zipIsCsv) p1 with
    | .error pe => .error pe
    | .ok p2 =>
      if p2.email = "" then emailFallbackList (members.filter zipIsCsv) p2 else .ok p2

/-- The Full Name step of the direct CSV branch, app.py lines 303-304. -/
def directCsvNameStep (df : Table) (p : Parsed) : PStep :=
  if df.hasCol "Full Name" then
    match df.rows.head? with
    | none => .error (p, "single positional indexer is out-of-bounds")
    | some row => .ok { p with name := (df.cell row "Full Name").getD p.name }
  else .ok p

/-- The non-ZIP branch of parse_linkedin_export, app.py lines 293-312. -/
def directPath (fname raw : String) (p : Parsed) : PStep :=
  if pyEndsWith (pyLower fname) ".json" then
    match jsonLoads raw with
    | .error e => Except.error (p, e)
    | .ok (.obj kvs) =>
      let name1 :=
        match firstTruthyJ [jget kvs "fullName", jget kvs "name"] with
        | some v => jAsStr v
        | none => p.name
      let summary1 :=
        match jget kvs "summary" with
        | some v => jAsStr v
        | none => p.summary
      Except.ok { p with name := name1, summary := summary1 }
    | .ok other => Except.error (p, pyNoGetAttr other)
  else if pyEndsWith (pyLower fname) ".csv" then
    match csvParse raw with
    | .error _ => Except.error (p, "No columns to parse from file")
    | .ok df =>
      match directCsvNameStep df p with
      | .error pe => .error pe
      | .ok p1 =>
        if df.hasCol "Title" && df.hasCol "Company" then
          .ok { p1 with experience := p1.experience ++ df.rows.map (fun r =>
            { title := (df.cell r "Title").getD "",
              company := (df.cell r "Company").getD "",
              duration := (df.cell r "Date Range").getD "",
              description := (df.cell r "Description").getD "" }) }
        else .ok p1
  else Except.ok p

/-- Skill inference from the summary, app.py line 318: split on commas, newlines and
semicolons, strip, keep fragments under 40 characters, cap at 12. -/
def inferSkills (summary : String) : List String :=
  (((pySplitChars [',', '\n', ';'] summary).map pyStrip).filter (fun s => s.length < 40)).take 12

/-- The skill inference gate, app.py lines 317-318: only when no skills were
recovered and a summary is present. -/
def applySkillFallback (p : Parsed) : Parsed :=
  if p.skills.isEmpty && !(p.summary == "") then { p with skills := inferSkills p.summary } else p

/-- Model of parse_linkedin_export, app.py lines 203-320. The result pairs the
returned record with the warning message shown when the try block raised; the
data recovered before the exception stays in the record, and the skill inference
runs in either case. The record has no _error key: err is always none. -/
def parse_linkedin_export (u : Uploaded) : Parsed × Option String :=
  let body : PStep :=
    if pyEndsWith (pyLower u.name) ".zip" then
      match u.bytes with
      | .zipBytes members => zipPath members emptyParsed
      | .textBytes _ => .error (emptyParsed, "File is not a zip file")
    else
      match u.bytes with
      | .textBytes raw => directPath u.name raw emptyParsed
      | .zipBytes _ => .error (emptyParsed, "invalid start byte")
  match body with
  | .ok p => (applySkillFallback p, none)
  | .error (p, e) => (applySkillFallback p, some ("Could not fully parse LinkedIn export: " ++ e))

/-- One experience block as captured from scraped markup: each sub-selector either
matched (with its extracted text) or did not. -/
structure ScrapedExp where
  title : Option String
  company : Option String
  duration : Option String
  description : Option String

/-- One education block as captured from scraped markup. -/
structure ScrapedEdu where
  degree : Option String
  institution : Option String
  year : Option String

/-- The scrape phase of a fetched page. soupErr models BeautifulSoup(r.text)
raising before any field is touched; after that, each heuristic step of app.py
lines 354-403 either completes with what its selectors produced (for the single
fields, the text of the first alternative that matched, if any) or raises with an
exception text, since any call inside a step can throw. A raise inside the skill,
experience or education loops loses that whole field, because the source assigns
it into parsed only after its loop finishes. -/
structure ScrapedDoc where
  soupErr : Option String
  nameStep : Except String (Option String)
  headlineStep : Except String (Option String)
  aboutStep : Except String (Option String)
  skillStep : Except String (List String)
  expStep : Except String (List ScrapedExp)
  eduStep : Except String (List ScrapedEdu)

/-- Outcomes of the network step of fetch_public_linkedin: an invalid URL, an
exception from requests.get, or a reply with a status code and parsed markup. -/
inductive PageOutcome where
  | badUrl
  | requestError (msg : String)
  | response (status : Nat) (doc : ScrapedDoc)

/-- Decimal rendering of a Nat as a string. -/
def natToStr (n : Nat) : String := ⟨natToDec n⟩

/-- Model of fetch_public_linkedin, app.py lines 322-407: a failure at any point is
returned as a record carrying the _error text together with every field populated
before the failure - the empty-shaped defaults when nothing had been recovered yet;
a fully completed scrape is returned without _error. The heuristic steps run in
source order (name, headline, about, skills, experience, education) with caps of 20
skill blocks and 10 experience and education items. -/
def fetch_public_linkedin : PageOutcome → Parsed
  | .badUrl => { emptyParsed with err := some "Invalid URL" }
  | .requestError m => { emptyParsed with err := some m }
  | .response st doc =>
    if st ≠ 200 then
      { emptyParsed with err := some ("Could not fetch page (status " ++ natToStr st ++ ")") }
    else
      match doc.soupErr with
      | some e => { emptyParsed with err := some e }
      | none =>
        match doc.nameStep with
        | .error e => { emptyParsed with err := some e }
        | .ok nm =>
          let p1 := { emptyParsed with name := nm.getD "" }
          match doc.headlineStep with
          | .error e => { p1 with err := some e }
          | .ok hd =>
            let p2 := { p1 with current_role := hd.getD "" }
            match doc.aboutStep with
            | .error e => { p2 with err := some e }
            | .ok ab =>
              let p3 := { p2 with summary := ab.getD "" }
              match doc.skillStep with
              | .error e => { p3 with err := some e }
              | .ok sk =>
                let p4 := { p3 with skills := (sk.take 20).filter (fun s => s ≠ "") }
                match doc.expStep with
                | .error e => { p4 with err := some e }
                | .ok ex =>
                  let p5 := { p4 with experience := (ex.take 10).map (fun (w : ScrapedExp) =>
                    ⟨w.title.getD "", w.company.getD "", w.duration.getD "",
                      w.description.getD ""⟩) }
                  match doc.eduStep with
                  | .error e => { p5 with err := some e }
                  | .ok ed =>
                    { p5 with education := (ed.take 10).map (fun (w : ScrapedEdu) =>
                      ⟨w.degree.getD "", w.institution.getD "", w.year.getD ""⟩) }

/-- The in-progress user_data record of the session. -/
structure UserData where
  name : String := ""
  email : String := ""
  phone : String := ""
  current_role : String := ""
  summary : String := ""
  skills : List String := []
  experience : List ExpEntry := []
  projects : List ProjEntry := []
  education : List EduEntry := []
  job_description : String := ""
  tailored_experience : List ExpEntry := []
deriving DecidableEq

/-- Model of merge_parsed_into_user, app.py lines 409-429: each field is copied from
the parsed record only when the parsed value is truthy and the target value is not. -/
def merge_parsed_into_user (parsed : Parsed) (ud : UserData) : UserData :=
  let ud := if parsed.name ≠ "" ∧ ud.name = "" then { ud with name := parsed.name } else ud
  let ud := if parsed.email ≠ "" ∧ ud.email = "" then { ud with email := parsed.email } else ud
  let ud := if parsed.phone ≠ "" ∧ ud.phone = "" then { ud with phone := parsed.phone } else ud
  let ud := if parsed.current_role ≠ "" ∧ ud.current_role = "" then
    { ud with current_role := parsed.current_role } else ud
  let ud := if parsed.summary ≠ "" ∧ ud.summary = "" then { ud with summary := parsed.summary }
    else ud
  let ud := if parsed.skills ≠ [] ∧ ud.skills = [] then { ud with skills := parsed.skills } else ud
  let ud := if parsed.experience ≠ [] ∧ ud.experience = [] then
    { ud with experience := parsed.experience } else ud
  if parsed.education ≠ [] ∧ ud.education = [] then { ud with education := parsed.education }
  else ud

/-- The err field carried by a parse step result, whether ok or raised. -/
def stepErr : PStep → Option String
  | .ok p => p.err
  | .error (p, _) => p.err

theorem skipWs_cons (c : Char) (cs : List Char) (h : isJWs c = false) :
    skipWs (c :: cs) = c :: cs := by
  simp [skipWs, List.dropWhile_cons, h]

theorem jsize_pos : ∀ v : Json, 1 ≤ jsize v := by
  intro v; cases v <;> simp only [jsize] <;> omega

theorem jsizeL_pos : ∀ xs : List Json, 1 ≤ jsizeL xs := by
  intro xs; cases xs <;> simp only [jsizeL] <;> omega

theorem jsizeKV_pos : ∀ kvs : List (String × Json), 1 ≤ jsizeKV kvs := by
  intro kvs; cases kvs with
  | nil => simp only [jsizeKV]; omega
  | cons p t => obtain ⟨k, v⟩ := p; simp only [jsizeKV]; omega

theorem takeWhile_append_all (p : Char → Bool) (a b : List Char) (h : ∀ c ∈ a, p c = true) :
    (a ++ b).takeWhile p = a ++ b.takeWhile p := by
  induction a with
  | nil => rfl
  | cons x t ih =>
    have hx := h x (by simp)
    simp [List.takeWhile_cons, hx, ih (fun c hc => h c (by simp [hc]))]

theorem dropWhile_append_all (p : Char → Bool) (a b : List Char) (h : ∀ c ∈ a, p c = true) :
    (a ++ b).dropWhile p = b.dropWhile p := by
  induction a with
  | nil => rfl
  | cons x t ih =>
    simp only [List.cons_append, List.dropWhile_cons, h x (by simp)]
    exact ih (fun c hc => h c (by simp [hc]))

theorem isPrefixOf_append_self (a b : List Char) : a.isPrefixOf (a ++ b) = true := by
  induction a with
  | nil => simp [List.isPrefixOf]
  | cons x t ih => simp [List.isPrefixOf, ih]

theorem expectLit_append (lit : List Char) (v : Json) (rest : List Char) :
    expectLit lit v (lit ++ rest) = .ok (v, rest) := by
  unfold expectLit
  rw [if_pos (isPrefixOf_append_self lit rest), List.drop_left]

theorem digitCh_facts (d : Nat) (h : d < 10) :
    (digitCh d).isDigit = true ∧ isJWs (digitCh d) = false ∧ digitVal (digitCh d) = d ∧
      headKind (digitCh d) = .knum ∧ digitCh d ≠ ']' ∧ digitCh d ≠ '-' := by
  interval_cases d <;> exact (by decide)

theorem toDecAux_spec : ∀ f n, n < f →
    toDecAux f n ≠ [] ∧ (∀ c ∈ toDecAux f n, c.isDigit = true) ∧
      ∀ a : Nat, (toDecAux f n).foldl (fun a c => 10 * a + digitVal c) a
        = a * 10 ^ (toDecAux f n).length + n := by
  intro f
  induction f with
  | zero => intro n h; omega
  | succ f ih =>
    intro n h
    by_cases hn : n < 10
    · simp only [toDecAux, if_pos hn]
      obtain ⟨hd, _, hv, _, _, _⟩ := digitCh_facts n hn
      refine ⟨by simp, by simpa using hd, ?_⟩
      intro a
      simp [List.foldl, hv]
      omega
    · have hrec : n / 10 < f := by omega
      obtain ⟨hne, hdig, hfold⟩ := ih (n / 10) hrec
      obtain ⟨hd, _, hv, _, _, _⟩ := digitCh_facts (n % 10) (by omega)
      simp only [toDecAux, if_neg hn]
      refine ⟨by simp, ?_, ?_⟩
      · intro c hc
        rcases List.mem_append.1 hc with h1 | h1
        · exact hdig c h1
        · simp at h1; subst h1; exact hd
      · intro a
        rw [List.foldl_append, hfold a]
        have hfold1 : List.foldl (fun a c => 10 * a + digitVal c)
            (a * 10 ^ (toDecAux f (n / 10)).length + n / 10) [digitCh (n % 10)]
            = 10 * (a * 10 ^ (toDecAux f (n / 10)).length + n / 10) + n % 10 := by
          simp [List.foldl, hv]
        rw [hfold1]
        have hlen : (toDecAux f (n / 10) ++ [digitCh (n % 10)]).length
            = (toDecAux f (n / 10)).length + 1 := by simp
        rw [hlen, pow_succ, ← mul_assoc]
        generalize a * 10 ^ (toDecAux f (n / 10)).length = A
        omega

theorem natToDec_spec (n : Nat) :
    natToDec n ≠ [] ∧ (∀ c ∈ natToDec n, c.isDigit = true) ∧
      natFromDigits (natToDec n) = n := by
  obtain ⟨h1, h2, h3⟩ := toDecAux_spec (n + 1) n (by omega)
  refine ⟨h1, h2, ?_⟩
  unfold natFromDigits natToDec
  rw [h3 0]
  simp

theorem parseNatNum_round (n : Nat) (rest : List Char) (hr : restOk rest = true) :
    parseNatNum (natToDec n ++ rest) = .ok (n, rest) := by
  obtain ⟨hne, hdig, hval⟩ := natToDec_spec n
  have htw : (natToDec n ++ rest).takeWhile Char.isDigit = natToDec n := by
    rw [takeWhile_append_all _ _ _ hdig]
    cases rest with
    | nil => simp
    | cons c t =>
      simp only [restOk, Bool.not_eq_true'] at hr
      simp [List.takeWhile_cons, hr]
  have hdw : (natToDec n ++ rest).dropWhile Char.isDigit = rest := by
    rw [dropWhile_append_all _ _ _ hdig]
    cases rest with
    | nil => simp
    | cons c t =>
      simp only [restOk, Bool.not_eq_true'] at hr
      simp [List.dropWhile_cons, hr]
  unfold parseNatNum
  simp only [htw, hdw]
  rw [if_neg (by simpa using hne), hval]

theorem renderInt_head (m : Int) :
    ∃ c t, renderInt m = c :: t ∧ isJWs c = false ∧ headKind c = .knum ∧ c ≠ ']' := by
  unfold renderInt
  by_cases hm : m < 0
  · rw [if_pos hm]
    exact ⟨'-', _, rfl, by decide, by decide, by decide⟩
  · rw [if_neg hm]
    obtain ⟨hne, hdig, _⟩ := natToDec_spec m.toNat
    obtain ⟨c, t, hct⟩ : ∃ c t, natToDec m.toNat = c :: t := by
      cases h : natToDec m.toNat with
      | nil => exact absurd h hne
      | cons c t => exact ⟨c, t, rfl⟩
    have hcd : c.isDigit = true := hdig c (by rw [hct]; simp)
    refine ⟨c, t, hct, ?_, ?_, ?_⟩
    · revert hcd
      unfold Char.isDigit isJWs
      intro hcd
      simp only [Bool.and_eq_true, decide_eq_true_eq] at hcd
      simp only [Bool.or_eq_false_iff, decide_eq_false_iff_not]
      refine ⟨⟨⟨?_, ?_⟩, ?_⟩, ?_⟩ <;> (rintro rfl; revert hcd; decide)
    · unfold headKind
      rw [if_neg, if_neg, if_neg, if_neg, if_neg, if_neg, if_pos]
      · simp [hcd]
      all_goals (rintro rfl; revert hcd; decide)
    · rintro rfl; revert hcd; decide

theorem parseNumber_round (m : Int) (rest : List Char) (hr : restOk rest = true) :
    parseNumber (renderInt m ++ rest) = .ok (.num m, rest) := by
  by_cases hm : m < 0
  · unfold renderInt
    rw [if_pos hm]
    simp only [List.cons_append, parseNumber]
    rw [if_pos trivial, parseNatNum_round m.natAbs rest hr]
    have habs : (-(m.natAbs : Int)) = m := by omega
    simp only [Except.map]
    rw [habs]
  · unfold renderInt
    rw [if_neg hm]
    obtain ⟨hne, hdig, _⟩ := natToDec_spec m.toNat
    obtain ⟨c, t, hct⟩ : ∃ c t, natToDec m.toNat = c :: t := by
      cases h : natToDec m.toNat with
      | nil => exact absurd h hne
      | cons c t => exact ⟨c, t, rfl⟩
    have hcd : c.isDigit = true := hdig c (by rw [hct]; simp)
    have hcm : c ≠ '-' := by rintro rfl; revert hcd; decide
    rw [hct]
    simp only [List.cons_append, parseNumber, if_neg hcm]
    rw [← List.cons_append, ← hct, parseNatNum_round m.toNat rest hr]
    have htn : ((m.toNat : Int)) = m := by omega
    simp only [Except.map]
    rw [htn]

theorem parseStrBody_round : ∀ (s rest : List Char),
    parseStrBody (escStr s ++ '"' :: rest) = .ok (s, rest) := by
  intro s
  induction s with
  | nil =>
    intro rest
    show parseStrBody ('"' :: rest) = _
    rw [parseStrBody.eq_def]
    simp
  | cons c t ih =>
    intro rest
    by_cases h1 : c = '"'
    · subst h1
      rw [show escStr ('"' :: t) = '\\' :: '"' :: escStr t from by simp [escStr, escChar]]
      simp only [List.cons_append]
      rw [parseStrBody.eq_def]
      simp [unescCh, ih rest, Except.map]
    · by_cases h2 : c = '\\'
      · subst h2
        rw [show escStr ('\\' :: t) = '\\' :: '\\' :: escStr t from by simp [escStr, escChar]]
        simp only [List.cons_append]
        rw [parseStrBody.eq_def]
        simp [unescCh, ih rest, Except.map]
      · rw [show escStr (c :: t) = c :: escStr t from by simp [escStr, escChar, h1, h2]]
        simp only [List.cons_append]
        rw [parseStrBody.eq_def]
        simp [h1, h2, ih rest, Except.map]

theorem renderV_head : ∀ v : Json,
    ∃ c t, renderV v = c :: t ∧ isJWs c = false ∧ c ≠ ']' := by
  intro v
  cases v with
  | null => exact ⟨'n', _, rfl, by decide, by decide⟩
  | bool b => cases b with
    | true => exact ⟨'t', _, rfl, by decide, by decide⟩
    | false => exact ⟨'f', _, rfl, by decide, by decide⟩
  | num m =>
    obtain ⟨c, t, hct, hws, _, hne⟩ := renderInt_head m
    exact ⟨c, t, by simp [renderV, hct], hws, hne⟩
  | str s => exact ⟨'"', _, rfl, by decide, by decide⟩
  | arr xs => exact ⟨'[', _, rfl, by decide, by decide⟩
  | obj kvs => exact ⟨lbrace, _, rfl, by decide, by decide⟩

mutual
theorem jsize_le : ∀ v : Json, jsize v ≤ (renderV v).length + 1
  | .null => by simp [jsize, renderV]
  | .bool true => by simp [jsize, renderV]
  | .bool false => by simp [jsize, renderV]
  | .num m => by simp [jsize]
  | .str s => by simp [jsize]
  | .arr xs => by
      have h := jsizeL_le xs
      simp only [jsize, renderV, List.length_cons, List.length_append]
      simp at h ⊢
      omega
  | .obj kvs => by
      have h := jsizeKV_le kvs
      simp only [jsize, renderV, List.length_cons, List.length_append]
      simp at h ⊢
      omega

theorem jsizeL_le : ∀ xs : List Json, jsizeL xs ≤ (renderItems xs).length + 2
  | [] => by simp [jsizeL]
  | [x] => by
      have h := jsize_le x
      simp only [jsizeL, renderItems]
      simp [jsizeL]
      omega
  | x :: y :: t => by
      have h1 := jsize_le x
      have h2 := jsizeL_le (y :: t)
      simp only [jsizeL] at h2 ⊢
      simp only [renderItems, List.length_append, List.length_cons]
      omega

theorem jsizeKV_le : ∀ kvs : List (String × Json), jsizeKV kvs ≤ (renderFields kvs).length + 2
  | [] => by simp [jsizeKV]
  | [(k, v)] => by
      have h := jsize_le v
      simp only [jsizeKV, renderFields, List.length_cons, List.length_append]
      simp [jsizeKV]
      omega
  | (k, v) :: p :: t => by
      have h1 := jsize_le v
      have h2 := jsizeKV_le (p :: t)
      obtain ⟨pk, pv⟩ := p
      simp only [jsizeKV] at h2 ⊢
      simp only [renderFields, List.length_append, List.length_cons]
      omega
end

theorem parseV_cons (n : Nat) (c : Char) (t : List Char) (h : isJWs c = false) :
    parseV (n+1) (c :: t) = (match headKind c with
      | .knull => expectLit ['u', 'l', 'l'] .null t
      | .ktrue => expectLit ['r', 'u', 'e'] (.bool true) t
      | .kfalse => expectLit ['a', 'l', 's', 'e'] (.bool false) t
      | .kstr => (parseStrBody t).map (fun p => (.str ⟨p.1⟩, p.2))
      | .karr => (parseItems n t).map (fun p => (.arr p.1, p.2))
      | .kobj => (parseFields n t).map (fun p => (.obj p.1, p.2))
      | .knum => parseNumber (c :: t)
      | .kbad => .error "Expecting value") := by
  rw [parseV.eq_def]
  simp only [skipWs_cons c t h]

theorem parseItems_cons (n : Nat) (c : Char) (t : List Char) (h : isJWs c = false) :
    parseItems (n+1) (c :: t) = (if c = ']' then .ok ([], t) else
      match parseV n (c :: t) with
      | .error e => .error e
      | .ok (v, r) =>
        match skipWs r with
        | [] => .error "Expecting delimiter"
        | d :: r' =>
          if d = ',' then (parseItems n r').map (fun p => (v :: p.1, p.2))
          else if d = ']' then .ok ([v], r')
          else .error "Expecting delimiter") := by
  rw [parseItems.eq_def]
  simp only [skipWs_cons c t h]

theorem parseFields_cons (n : Nat) (c : Char) (t : List Char) (h : isJWs c = false) :
    parseFields (n+1) (c :: t) = (if c = rbrace then .ok ([], t)
      else if c = '"' then
        match parseStrBody t with
        | .error e => .error e
        | .ok (k, r) =>
          match skipWs r with
          | [] => .error "Expecting colon"
          | d :: r' =>
            if d = ':' then
              match parseV n r' with
              | .error e => .error e
              | .ok (v, r2) =>
                match skipWs r2 with
                | [] => .error "Expecting delimiter"
                | d2 :: r3 =>
                  if d2 = ',' then (parseFields n r3).map (fun p => ((⟨k⟩, v) :: p.1, p.2))
                  else if d2 = rbrace then .ok ([(⟨k⟩, v)], r3)
                  else .error "Expecting delimiter"
            else .error "Expecting colon"
      else .error "Expecting property name") := by
  rw [parseFields.eq_def]
  simp only [skipWs_cons c t h]

theorem restOk_cons (c : Char) (t : List Char) (h : c.isDigit = false) :
    restOk (c :: t) = true := by
  simp [restOk, h]

theorem parse_render_all : ∀ fuel : Nat,
    (∀ v rest, jsize v ≤ fuel → restOk rest = true →
      parseV fuel (renderV v ++ rest) = .ok (v, rest)) ∧
    (∀ xs rest, jsizeL xs ≤ fuel →
      parseItems fuel (renderItems xs ++ ']' :: rest) = .ok (xs, rest)) ∧
    (∀ kvs rest, jsizeKV kvs ≤ fuel →
      parseFields fuel (renderFields kvs ++ rbrace :: rest) = .ok (kvs, rest)) := by
  intro fuel
  induction fuel with
  | zero =>
    refine ⟨?_, ?_, ?_⟩
    · intro v rest hs _
      have := jsize_pos v
      omega
    · intro xs rest hs
      have := jsizeL_pos xs
      omega
    · intro kvs rest hs
      have := jsizeKV_pos kvs
      omega
  | succ n ih =>
    obtain ⟨ih1, ih2, ih3⟩ := ih
    refine ⟨?_, ?_, ?_⟩
    · intro v rest hs hr
      cases v with
      | null =>
        show parseV (n+1) ('n' :: ('u' :: 'l' :: 'l' :: rest)) = _
        rw [parseV_cons n 'n' _ (by decide), show headKind 'n' = .knull from by decide]
        exact expectLit_append ['u','l','l'] .null rest
      | bool b =>
        cases b with
        | true =>
          show parseV (n+1) ('t' :: ('r' :: 'u' :: 'e' :: rest)) = _
          rw [parseV_cons n 't' _ (by decide), show headKind 't' = .ktrue from by decide]
          exact expectLit_append ['r','u','e'] (.bool true) rest
        | false =>
          show parseV (n+1) ('f' :: ('a' :: 'l' :: 's' :: 'e' :: rest)) = _
          rw [parseV_cons n 'f' _ (by decide), show headKind 'f' = .kfalse from by decide]
          exact expectLit_append ['a','l','s','e'] (.bool false) rest
      | num m =>
        obtain ⟨c, t, hct, hws, hk, _⟩ := renderInt_head m
        show parseV (n+1) (renderInt m ++ rest) = _
        rw [hct]
        simp only [List.cons_append]
        rw [parseV_cons n c _ hws, hk]
        show parseNumber (c :: (t ++ rest)) = _
        rw [← List.cons_append, ← hct]
        exact parseNumber_round m rest hr
      | str s =>
        show parseV (n+1) ('"' :: ((escStr s.data ++ ['"']) ++ rest)) = _
        rw [List.append_assoc]
        rw [parseV_cons n '"' _ (by decide), show headKind '"' = .kstr from by decide]
        show (parseStrBody (escStr s.data ++ '"' :: rest)).map _ = _
        rw [parseStrBody_round s.data rest]
        rfl
      | arr xs =>
        show parseV (n+1) ('[' :: ((renderItems xs ++ [']']) ++ rest)) = _
        rw [List.append_assoc]
        rw [parseV_cons n '[' _ (by decide), show headKind '[' = .karr from by decide]
        show (parseItems n (renderItems xs ++ ']' :: rest)).map _ = _
        rw [ih2 xs rest (by rw [jsize] at hs; omega)]
        rfl
      | obj kvs =>
        show parseV (n+1) (lbrace :: ((renderFields kvs ++ [rbrace]) ++ rest)) = _
        rw [List.append_assoc]
        rw [parseV_cons n lbrace _ (by decide), show headKind lbrace = .kobj from by decide]
        show (parseFields n (renderFields kvs ++ rbrace :: rest)).map _ = _
        rw [ih3 kvs rest (by rw [jsize] at hs; omega)]
        rfl
    · intro xs rest hsz
      cases xs with
      | nil =>
        show parseItems (n+1) (']' :: rest) = _
        rw [parseItems_cons n ']' rest (by decide), if_pos rfl]
      | cons x t =>
        obtain ⟨c, ct, hx, hws, hne⟩ := renderV_head x
        cases t with
        | nil =>
          show parseItems (n+1) (renderV x ++ ']' :: rest) = _
          have hback : renderV x ++ ']' :: rest = c :: (ct ++ ']' :: rest) := by
            rw [hx]; rfl
          rw [hback, parseItems_cons n c _ hws, if_neg hne, ← hback]
          rw [ih1 x (']' :: rest) (by rw [jsizeL] at hsz; omega) (restOk_cons _ _ (by decide))]
          simp only [skipWs_cons ']' rest (by decide : isJWs ']' = false)]
          rw [if_neg (by decide : ¬(']' : Char) = ','), if_pos trivial]
        | cons y t' =>
          have hgoal : renderItems (x :: y :: t') ++ ']' :: rest
              = renderV x ++ (',' :: (renderItems (y :: t') ++ ']' :: rest)) := by
            simp [renderItems, List.append_assoc]
          rw [hgoal]
          have hback : renderV x ++ (',' :: (renderItems (y :: t') ++ ']' :: rest))
              = c :: (ct ++ (',' :: (renderItems (y :: t') ++ ']' :: rest))) := by
            rw [hx]; rfl
          rw [hback, parseItems_cons n c _ hws, if_neg hne, ← hback]
          rw [ih1 x (',' :: (renderItems (y :: t') ++ ']' :: rest))
            (by rw [jsizeL] at hsz; omega) (restOk_cons _ _ (by decide))]
          simp only [skipWs_cons ',' (renderItems (y :: t') ++ ']' :: rest)
            (by decide : isJWs ',' = false)]
          rw [if_pos trivial]
          rw [ih2 (y :: t') rest (by rw [jsizeL] at hsz; omega)]
          rfl
    · intro kvs rest hsz
      cases kvs with
      | nil =>
        show parseFields (n+1) (rbrace :: rest) = _
        rw [parseFields_cons n rbrace rest (by decide), if_pos rfl]
      | cons kv t =>
        obtain ⟨k, v⟩ := kv
        cases t with
        | nil =>
          have hshape : renderFields [(k, v)] ++ rbrace :: rest
              = '"' :: (escStr k.data ++ '"' :: (':' :: (renderV v ++ rbrace :: rest))) := by
            simp [renderFields, List.append_assoc]
          rw [hshape, parseFields_cons n '"' _ (by decide)]
          rw [if_neg (by decide : ¬('"' : Char) = rbrace), if_pos rfl]
          rw [parseStrBody_round k.data (':' :: (renderV v ++ rbrace :: rest))]
          simp only [skipWs_cons ':' (renderV v ++ rbrace :: rest) (by decide : isJWs ':' = false)]
          rw [if_pos trivial]
          rw [ih1 v (rbrace :: rest) (by rw [jsizeKV] at hsz; omega) (restOk_cons _ _ (by decide))]
          simp only [skipWs_cons rbrace rest (by decide : isJWs rbrace = false)]
          rw [if_neg (by decide : ¬rbrace = ','), if_pos trivial]
        | cons p t' =>
          have hshape : renderFields ((k, v) :: p :: t') ++ rbrace :: rest
              = '"' :: (escStr k.data ++ '"' :: (':' :: (renderV v
                  ++ ',' :: (renderFields (p :: t') ++ rbrace :: rest)))) := by
            simp [renderFields, List.append_assoc]
          rw [hshape, parseFields_cons n '"' _ (by decide)]
          rw [if_neg (by decide : ¬('"' : Char) = rbrace), if_pos rfl]
          rw [parseStrBody_round k.data
            (':' :: (renderV v ++ ',' :: (renderFields (p :: t') ++ rbrace :: rest)))]
          simp only [skipWs_cons ':' (renderV v ++ ',' :: (renderFields (p :: t') ++ rbrace :: rest))
            (by decide : isJWs ':' = false)]
          rw [if_pos trivial]
          rw [ih1 v (',' :: (renderFields (p :: t') ++ rbrace :: rest))
            (by rw [jsizeKV] at hsz; omega) (restOk_cons _ _ (by decide))]
          simp only [skipWs_cons ',' (renderFields (p :: t') ++ rbrace :: rest)
            (by decide : isJWs ',' = false)]
          rw [if_pos trivial]
          rw [ih3 (p :: t') rest (by rw [jsizeKV] at hsz; omega)]
          rfl

theorem jsonLoadsL_render (v : Json) : jsonLoadsL (renderV v) = .ok v := by
  unfold jsonLoadsL
  have h := (parse_render_all ((renderV v).length + 1)).1 v []
    (le_trans (jsize_le v) (by omega)) rfl
  rw [List.append_nil] at h
  rw [h]
  rfl

theorem bracketSlice_extract (pre mid post : List Char)
    (hpre : ∀ c ∈ pre, c ≠ '[') (hpost : ∀ c ∈ post, c ≠ ']')
    (hh : ∃ t, mid = '[' :: t) (hl : ∃ t, mid = t ++ [']']) :
    bracketSlice (pre ++ mid ++ post) = some mid := by
  obtain ⟨t1, h1⟩ := hh
  obtain ⟨t2, h2⟩ := hl
  have hdrop : (pre ++ mid ++ post).dropWhile notOpen = mid ++ post := by
    rw [List.append_assoc]
    rw [dropWhile_append_all notOpen pre (mid ++ post)
      (by intro c hc; simp [notOpen, hpre c hc])]
    rw [h1]
    simp [List.dropWhile_cons, notOpen]
  have hrev : ((mid ++ post).reverse.dropWhile notClose).reverse = mid := by
    rw [List.reverse_append]
    rw [dropWhile_append_all notClose post.reverse mid.reverse
      (by intro c hc; simp only [List.mem_reverse] at hc; simp [notClose, hpost c hc])]
    rw [h2, List.reverse_append]
    simp [List.dropWhile_cons, notClose]
  unfold bracketSlice
  rw [hdrop, hrev]
  rw [if_neg (by rw [h1]; simp)]

theorem splitCharsL_ne_nil (delims : List Char) : ∀ cs, splitCharsL delims cs ≠ [] := by
  intro cs
  induction cs with
  | nil => simp [splitCharsL]
  | cons c rest ih =>
    simp only [splitCharsL]
    cases h : splitCharsL delims rest with
    | nil => simp
    | cons h' t => by_cases hm : c ∈ delims <;> simp [hm]

theorem splitCharsL_free (delims : List Char) :
    ∀ u, (∀ c ∈ u, c ∉ delims) → splitCharsL delims u = [u] := by
  intro u
  induction u with
  | nil => intro _; rfl
  | cons c rest ih =>
    intro h
    simp only [splitCharsL]
    rw [ih (fun c hc => h c (by simp [hc]))]
    simp [h c (by simp)]

theorem splitCharsL_append (delims : List Char) (d : Char) (hd : d ∈ delims) :
    ∀ u rest, (∀ c ∈ u, c ∉ delims) →
      splitCharsL delims (u ++ d :: rest) = u :: splitCharsL delims rest := by
  intro u
  induction u with
  | nil =>
    intro rest _
    simp only [List.nil_append, splitCharsL]
    cases h : splitCharsL delims rest with
    | nil => exact absurd h (splitCharsL_ne_nil delims rest)
    | cons h' t => simp [hd]
  | cons c u' ih =>
    intro rest h
    simp only [List.cons_append, splitCharsL]
    rw [List.append_eq, ih rest (fun c hc => h c (by simp [hc]))]
    simp [h c (by simp)]

theorem emailSynStep_err (t : Table) (row : List String) (p : Parsed) :
    (emailSynStep t row p).err = p.err := by
  unfold emailSynStep
  simp only [List.foldl]
  split_ifs <;> rfl

theorem contactStep_err (t : Table) (p : Parsed) : stepErr (contactStep t p) = p.err := by
  unfold contactStep
  split
  · split
    · rfl
    · simp only [stepErr]
      split_ifs <;> simp [emailSynStep_err]
  · rfl

theorem positionsStep_err (fname : String) (t : Table) (p : Parsed) :
    (positionsStep fname t p).err = p.err := by
  unfold positionsStep
  split_ifs <;> rfl

theorem educationStep_err (fname : String) (t : Table) (p : Parsed) :
    (educationStep fname t p).err = p.err := by
  unfold educationStep
  split_ifs <;> rfl

theorem processCsvMember_err (m : Member) (p : Parsed) :
    stepErr (processCsvMember m p) = p.err := by
  unfold processCsvMember
  split
  · rfl
  · rename_i df hdf
    split
    · rename_i pe hpe
      obtain ⟨q, msg⟩ := pe
      have h2 := contactStep_err df p
      rw [hpe] at h2
      exact h2
    · rename_i p1 hp1
      have h2 := contactStep_err df p
      rw [hp1] at h2
      simp only [stepErr]
      rw [educationStep_err, positionsStep_err]
      exact h2

theorem processCsvList_err : ∀ (ms : List Member) (p : Parsed),
    stepErr (processCsvList ms p) = p.err := by
  intro ms
  induction ms with
  | nil => intro p; rfl
  | cons m rest ih =>
    intro p
    simp only [processCsvList]
    split
    · rename_i pe hpe
      obtain ⟨q, msg⟩ := pe
      have h2 := processCsvMember_err m p
      rw [hpe] at h2
      exact h2
    · rename_i p1 hp1
      have h2 := processCsvMember_err m p
      rw [hp1] at h2
      rw [ih p1]
      exact h2

theorem emailFallbackFile_err (m : Member) (p : Parsed) :
    stepErr (emailFallbackFile m p) = p.err := by
  unfold emailFallbackFile
  split
  · rfl
  · split
    · rfl
    · split
      · rfl
      · rfl

theorem emailFallbackList_err : ∀ (ms : List Member) (p : Parsed),
    stepErr (emailFallbackList ms p) = p.err := by
  intro ms
  induction ms with
  | nil => intro p; rfl
  | cons m rest ih =>
    intro p
    simp only [emailFallbackList]
    split
    · rename_i pe hpe
      obtain ⟨q, msg⟩ := pe
      have h2 := emailFallbackFile_err m p
      rw [hpe] at h2
      exact h2
    · rename_i p1 hp1
      have h2 := emailFallbackFile_err m p
      rw [hp1] at h2
      rw [ih p1]
      exact h2

theorem applyProfileJson_err (kvs : List (String × Json)) (p : Parsed) :
    (applyProfileJson kvs p).err = p.err := rfl

theorem zipProfileStep_err (members : List Member) (p : Parsed) :
    stepErr (zipProfileStep members p) = p.err := by
  unfold zipProfileStep
  split
  · rfl
  · split
    · rfl
    · simp [stepErr, applyProfileJson_err]
    · rfl

theorem zipPath_err (members : List Member) (p : Parsed) :
    stepErr (zipPath members p) = p.err := by
  unfold zipPath
  split
  · rename_i pe hpe
    obtain ⟨q, msg⟩ := pe
    have h1 := zipProfileStep_err members p
    rw [hpe] at h1
    exact h1
  · rename_i p1 hp1
    have h1 := zipProfileStep_err members p
    rw [hp1] at h1
    split
    · rename_i pe hpe
      obtain ⟨q, msg⟩ := pe
      have h2 := processCsvList_err (members.filter zipIsCsv) p1
      rw [hpe] at h2
      rw [show stepErr (Except.error (q, msg) : PStep) = q.err from rfl] at h2 ⊢
      rw [h2]
      exact h1
    · rename_i p2 hp2
      have h2 := processCsvList_err (members.filter zipIsCsv) p1
      rw [hp2] at h2
      split_ifs with he
      · rw [emailFallbackList_err (members.filter zipIsCsv) p2]
        rw [show stepErr (Except.ok p2 : PStep) = p2.err from rfl] at h2
        rw [h2]
        exact h1
      · rw [show stepErr (Except.ok p2 : PStep) = p2.err from rfl] at h2 ⊢
        rw [h2]
        exact h1

theorem directCsvNameStep_err (df : Table) (p : Parsed) :
    stepErr (directCsvNameStep df p) = p.err := by
  unfold directCsvNameStep
  split
  · split
    · rfl
    · rfl
  · rfl

theorem directPath_err (fname raw : String) (p : Parsed) :
    stepErr (directPath fname raw p) = p.err := by
  unfold directPath
  split_ifs with h1 h2
  · split <;> rfl
  · split
    · rfl
    · rename_i df hdf
      split
      · rename_i pe hpe
        obtain ⟨q, msg⟩ := pe
        have h3 := directCsvNameStep_err df p
        rw [hpe] at h3
        exact h3
      · rename_i p1 hp1
        have h3 := directCsvNameStep_err df p
        rw [hp1] at h3
        split_ifs with ht
        · rw [show stepErr (Except.ok p1 : PStep) = p1.err from rfl] at h3
          exact h3
        · exact h3
  · rfl

theorem applySkillFallback_err (p : Parsed) : (applySkillFallback p).err = p.err := by
  unfold applySkillFallback
  split_ifs <;> rfl

theorem parse_linkedin_export_err (u : Uploaded) : (parse_linkedin_export u).1.err = none := by
  unfold parse_linkedin_export
  have key : ∀ r : PStep, stepErr r = none →
      (match r with
        | .ok p => (applySkillFallback p, (none : Option String))
        | .error (p, e) =>
          (applySkillFallback p, some ("Could not fully parse LinkedIn export: " ++ e))).1.err
        = none := by
    intro r hr
    cases r with
    | ok p => simpa [stepErr, applySkillFallback_err] using hr
    | error pe =>
      obtain ⟨q, msg⟩ := pe
      simpa [stepErr, applySkillFallback_err] using hr
  split_ifs with hz
  · cases u.bytes with
    | zipBytes members => exact key _ (by rw [zipPath_err]; rfl)
    | textBytes c =>
      exact key (Except.error (emptyParsed, "File is not a zip file")) rfl
  · cases u.bytes with
    | textBytes raw => exact key _ (by rw [directPath_err]; rfl)
    | zipBytes members =>
      exact key (Except.error (emptyParsed, "invalid start byte")) rfl

theorem csvParse_contact (a b : String)
    (hac : ',' ∉ a.data) (han : '\n' ∉ a.data) (hbc : ',' ∉ b.data) (hbn : '\n' ∉ b.data) :
    csvParse ("Email Address,Email\n" ++ a ++ "," ++ b)
      = .ok ⟨["Email Address", "Email"], [[a, b]]⟩ := by
  have hdata : ("Email Address,Email\n" ++ a ++ "," ++ b).data
      = "Email Address,Email".data ++ '\n' :: (a.data ++ ',' :: b.data) := by
    simp [String.data_append]
  have hsplit : splitCharsL ['\n'] ("Email Address,Email\n" ++ a ++ "," ++ b).data
      = "Email Address,Email".data :: [a.data ++ ',' :: b.data] := by
    rw [hdata]
    rw [splitCharsL_append ['\n'] '\n' (by simp) "Email Address,Email".data
      (a.data ++ ',' :: b.data) (by decide)]
    rw [splitCharsL_free ['\n'] (a.data ++ ',' :: b.data) ?hfree]
    case hfree =>
      intro c hc
      rcases List.mem_append.1 hc with h | h
      · intro hm
        rcases List.mem_singleton.1 hm with rfl
        exact han h
      · rcases List.mem_cons.1 h with rfl | h
        · decide
        · intro hm
          rcases List.mem_singleton.1 hm with rfl
          exact hbn h
  unfold csvParse pySplitChars
  rw [hsplit]
  have hne : (⟨a.data ++ ',' :: b.data⟩ : String) ≠ "" := by
    simp [String.ext_iff]
  simp only [List.map, List.filter]
  rw [show (decide ¬(⟨"Email Address,Email".data⟩ : String) = "") = true from by decide]
  rw [show (decide ¬(⟨a.data ++ ',' :: b.data⟩ : String) = "") = true from by
    simp [String.ext_iff]]
  have hrow : splitCharsL [','] (a.data ++ ',' :: b.data) = [a.data, b.data] := by
    rw [splitCharsL_append [','] ',' (by simp) a.data b.data
      (fun c hc hm => by rcases List.mem_singleton.1 hm with rfl; exact hac hc)]
    rw [splitCharsL_free [','] b.data
      (fun c hc hm => by rcases List.mem_singleton.1 hm with rfl; exact hbc hc)]
  simp only [pySplitChars, List.map, hrow]

theorem contact_email_last_wins (a b : String)
    (hb : b ≠ "")
    (hac : ',' ∉ a.data) (han : '\n' ∉ a.data) (hbc : ',' ∉ b.data) (hbn : '\n' ∉ b.data) :
    (parse_linkedin_export ⟨"Basic_Export.zip", .zipBytes
      [⟨"Connections.csv", "Email Address,Email\n" ++ a ++ "," ++ b⟩]⟩).1.email = b := by
  have hcsv := csvParse_contact a b hac han hbc hbn
  have e4 : processCsvMember ⟨"Connections.csv", "Email Address,Email\n" ++ a ++ "," ++ b⟩
      emptyParsed = .ok { emptyParsed with email := b } := by
    unfold processCsvMember
    simp only [hcsv]
    rfl
  have e5 : processCsvList [⟨"Connections.csv", "Email Address,Email\n" ++ a ++ "," ++ b⟩]
      emptyParsed = .ok { emptyParsed with email := b } := by
    unfold processCsvList
    simp only [e4]
    rfl
  have e6 : zipPath [⟨"Connections.csv", "Email Address,Email\n" ++ a ++ "," ++ b⟩]
      emptyParsed = .ok { emptyParsed with email := b } := by
    unfold zipPath
    simp only [show zipProfileStep [⟨"Connections.csv", "Email Address,Email\n" ++ a ++ "," ++ b⟩]
        emptyParsed = .ok emptyParsed from rfl,
      show List.filter zipIsCsv [⟨"Connections.csv", "Email Address,Email\n" ++ a ++ "," ++ b⟩]
        = [(⟨"Connections.csv", "Email Address,Email\n" ++ a ++ "," ++ b⟩ : Member)] from rfl,
      e5]
    rw [if_neg (show ¬(({ emptyParsed with email := b } : Parsed).email = "") from hb)]
  unfold parse_linkedin_export
  rw [if_pos (show pyEndsWith (pyLower "Basic_Export.zip") ".zip" = true from rfl)]
  simp only [e6]
  rfl

theorem inferSkills_keeps_empty (a b : String)
    (ha : ∀ c ∈ a.data, c ∉ ([',', '\n', ';'] : List Char))
    (hb : ∀ c ∈ b.data, c ∉ ([',', '\n', ';'] : List Char)) :
    "" ∈ inferSkills (a ++ ",," ++ b) := by
  have hdata : (a ++ ",," ++ b).data = a.data ++ ',' :: ',' :: b.data := by
    simp [String.data_append]
  have hsplit : splitCharsL [',', '\n', ';'] (a ++ ",," ++ b).data = [a.data, [], b.data] := by
    rw [hdata]
    rw [splitCharsL_append [',', '\n', ';'] ',' (by simp) a.data (',' :: b.data) ha]
    rw [show (',' :: b.data) = [] ++ ',' :: b.data from rfl,
      splitCharsL_append [',', '\n', ';'] ',' (by simp) [] b.data (by intro c hc; simp at hc)]
    rw [splitCharsL_free [',', '\n', ';'] b.data hb]
  unfold inferSkills pySplitChars
  rw [hsplit]
  simp only [List.map]
  rw [List.take_of_length_le (le_trans (List.length_filter_le _ _) (by simp))]
  rw [List.mem_filter]
  refine ⟨by simp [pyStrip, pyStripChars], by decide⟩

theorem merge_name (p : Parsed) (ud : UserData) :
    (merge_parsed_into_user p ud).name = if p.name ≠ "" ∧ ud.name = "" then p.name else ud.name := by
  unfold merge_parsed_into_user
  simp only [apply_ite (fun u : UserData => u.name)]
  simp

theorem merge_email (p : Parsed) (ud : UserData) :
    (merge_parsed_into_user p ud).email
      = if p.email ≠ "" ∧ ud.email = "" then p.email else ud.email := by
  unfold merge_parsed_into_user
  simp only [apply_ite (fun u : UserData => u.email)]
  simp

theorem merge_phone (p : Parsed) (ud : UserData) :
    (merge_parsed_into_user p ud).phone
      = if p.phone ≠ "" ∧ ud.phone = "" then p.phone else ud.phone := by
  unfold merge_parsed_into_user
  simp only [apply_ite (fun u : UserData => u.phone)]
  simp

theorem merge_current_role (p : Parsed) (ud : UserData) :
    (merge_parsed_into_user p ud).current_role
      = if p.current_role ≠ "" ∧ ud.current_role = "" then p.current_role else ud.current_role := by
  unfold merge_parsed_into_user
  simp only [apply_ite (fun u : UserData => u.current_role)]
  simp

theorem merge_summary (p : Parsed) (ud : UserData) :
    (merge_parsed_into_user p ud).summary
      = if p.summary ≠ "" ∧ ud.summary = "" then p.summary else ud.summary := by
  unfold merge_parsed_into_user
  simp only [apply_ite (fun u : UserData => u.summary)]
  simp

theorem merge_skills (p : Parsed) (ud : UserData) :
    (merge_parsed_into_user p ud).skills
      = if p.skills ≠ [] ∧ ud.skills = [] then p.skills else ud.skills := by
  unfold merge_parsed_into_user
  simp only [apply_ite (fun u : UserData => u.skills)]
  simp

theorem merge_experience (p : Parsed) (ud : UserData) :
    (merge_parsed_into_user p ud).experience
      = if p.experience ≠ [] ∧ ud.experience = [] then p.experience else ud.experience := by
  unfold merge_parsed_into_user
  simp only [apply_ite (fun u : UserData => u.experience)]
  simp

theorem merge_education (p : Parsed) (ud : UserData) :
    (merge_parsed_into_user p ud).education
      = if p.education ≠ [] ∧ ud.education = [] then p.education else ud.education := by
  unfold merge_parsed_into_user
  simp only [apply_ite (fun u : UserData => u.education)]
  simp

/-- C1 counterexample: the claim quantifies over arbitrary surrounding prose, but
prose containing a bracket breaks the greedy bracket slice. For the valid JSON
array of objects whose textual form follows the prose "[note] ", the extractor
slices from the prose bracket to the final bracket, fails to decode, reports the
failure and returns the caller-supplied list instead of the array. -/
theorem C1_counterexample :
    (tailor_resume_experience (Json.arr [])
        ("[note] " ++ (⟨renderV (Json.arr [Json.obj [("a", Json.num 1)]])⟩ : String))).1
      = Json.arr []
    ∧ (tailor_resume_experience (Json.arr [])
        ("[note] " ++ (⟨renderV (Json.arr [Json.obj [("a", Json.num 1)]])⟩ : String))).2.isSome
        = true
    ∧ Json.arr [] ≠ Json.arr [Json.obj [("a", Json.num 1)]] :=
  ⟨rfl, rfl, by simp⟩

/-- C1 (amended): for every JSON array of objects L, if the raw model output is
exactly L's textual form, preceded by prose containing no opening bracket and
followed by prose containing no closing bracket (a code fence with a language tag
is such prose), the extractor returns the value L with no failure signalled. -/
theorem C1_amended (L : List Json) (pre post : String) (expList : Json)
    (_hobj : ∀ v ∈ L, ∃ kvs, v = Json.obj kvs)
    (hpre : ∀ c ∈ pre.data, c ≠ '[') (hpost : ∀ c ∈ post.data, c ≠ ']') :
    tailor_resume_experience expList
        (pre ++ (⟨renderV (Json.arr L)⟩ : String) ++ post) = (Json.arr L, none) := by
  unfold tailor_resume_experience
  have hdata : (pre ++ (⟨renderV (Json.arr L)⟩ : String) ++ post).data
      = pre.data ++ renderV (Json.arr L) ++ post.data := by
    simp [String.data_append]
  rw [hdata]
  simp only [bracketSlice_extract pre.data (renderV (Json.arr L)) post.data hpre hpost
    ⟨renderItems L ++ [']'], rfl⟩ ⟨'[' :: renderItems L, by simp [renderV]⟩,
    jsonLoadsL_render (Json.arr L)]

/-- C1 witness: the amended statement applied at a concrete one-object array with
bracket-free prose on both sides. -/
theorem C1_witness :
    tailor_resume_experience (Json.arr [])
        ("Sure: " ++ (⟨renderV (Json.arr [Json.obj [("t", Json.str "x")]])⟩ : String) ++ " done")
      = (Json.arr [Json.obj [("t", Json.str "x")]], none) :=
  C1_amended [Json.obj [("t", Json.str "x")]] "Sure: " " done" (Json.arr [])
    (by intro v hv; rw [List.mem_singleton.1 hv]; exact ⟨_, rfl⟩)
    (by decide) (by decide)

/-- C2 counterexample: a bundled export whose contact CSV has both an Email Address
and an Email column populated with different values. The synonym loop has no break,
so each existing column overwrites in turn and the parsed email is the Email value,
not the Email Address value the claim requires. -/
theorem C2_counterexample :
    (parse_linkedin_export ⟨"Basic_Export.zip", .zipBytes
      [⟨"Connections.csv", "Email Address,Email\na@x.com,b@x.com"⟩]⟩).1.email = "b@x.com"
    ∧ ("b@x.com" : String) ≠ "a@x.com" :=
  ⟨rfl, by decide⟩

/-- C2 (amended): synonym resolution is deterministic, but the last existing column
in the prioritized list wins: whenever the contact table has exactly the columns
Email Address and Email with first-row values a and b, the normalizer sets the
parsed email to b, the Email value. The general statement over the synonym loop:
with both canonical columns present and neither lower-case variant, the loop ends
on the Email cell. -/
theorem C2_amended (a b : String) (hb : b ≠ "")
    (hac : ',' ∉ a.data) (han : '\n' ∉ a.data) (hbc : ',' ∉ b.data) (hbn : '\n' ∉ b.data) :
    (parse_linkedin_export ⟨"Basic_Export.zip", .zipBytes
      [⟨"Connections.csv", "Email Address,Email\n" ++ a ++ "," ++ b⟩]⟩).1.email = b
    ∧ ∀ (t : Table) (row : List String) (p : Parsed) (v : String),
        t.hasCol "Email Address" = true → t.hasCol "Email" = true →
        t.hasCol "email address" = false → t.hasCol "email" = false →
        t.cell row "Email" = some v → (emailSynStep t row p).email = v := by
  refine ⟨contact_email_last_wins a b hb hac han hbc hbn, ?_⟩
  intro t row p v h1 h2 h3 h4 hv
  unfold emailSynStep
  simp [List.foldl, h1, h2, h3, h4, hv]

/-- C2 witness: the amended statement applied at concrete addresses and at a
concrete two-column table. -/
theorem C2_witness :
    (parse_linkedin_export ⟨"Basic_Export.zip", .zipBytes
      [⟨"Connections.csv", "Email Address,Email\nme@a.org,me@b.org"⟩]⟩).1.email = "me@b.org"
    ∧ (emailSynStep ⟨["Email Address", "Email"], [["x@1.com", "x@2.com"]]⟩ ["x@1.com", "x@2.com"]
        emptyParsed).email = "x@2.com" := by
  have h := C2_amended "me@a.org" "me@b.org" (by decide) (by decide) (by decide) (by decide)
    (by decide)
  refine ⟨?_, h.2 _ _ _ _ rfl rfl rfl rfl rfl⟩
  have h1 := h.1
  rw [show ("Email Address,Email\n" ++ "me@a.org" ++ "," ++ "me@b.org")
    = "Email Address,Email\nme@a.org,me@b.org" from rfl] at h1
  exact h1

/-- C3: the merge never overwrites a scalar field that was nonempty on the target,
never changes a nonempty list field, and copies a field from the parsed record only
when the parsed value is nonempty and the target value is empty, in which case the
result holds exactly the parsed value. -/
theorem C3_merge_frame (p : Parsed) (ud : UserData) :
    (ud.name ≠ "" → (merge_parsed_into_user p ud).name = ud.name)
    ∧ (ud.email ≠ "" → (merge_parsed_into_user p ud).email = ud.email)
    ∧ (ud.phone ≠ "" → (merge_parsed_into_user p ud).phone = ud.phone)
    ∧ (ud.current_role ≠ "" → (merge_parsed_into_user p ud).current_role = ud.current_role)
    ∧ (ud.summary ≠ "" → (merge_parsed_into_user p ud).summary = ud.summary)
    ∧ (ud.skills ≠ [] → (merge_parsed_into_user p ud).skills = ud.skills)
    ∧ (ud.experience ≠ [] → (merge_parsed_into_user p ud).experience = ud.experience)
    ∧ (ud.education ≠ [] → (merge_parsed_into_user p ud).education = ud.education)
    ∧ ((merge_parsed_into_user p ud).name ≠ ud.name →
        p.name ≠ "" ∧ ud.name = "" ∧ (merge_parsed_into_user p ud).name = p.name)
    ∧ ((merge_parsed_into_user p ud).email ≠ ud.email →
        p.email ≠ "" ∧ ud.email = "" ∧ (merge_parsed_into_user p ud).email = p.email)
    ∧ ((merge_parsed_into_user p ud).phone ≠ ud.phone →
        p.phone ≠ "" ∧ ud.phone = "" ∧ (merge_parsed_into_user p ud).phone = p.phone)
    ∧ ((merge_parsed_into_user p ud).current_role ≠ ud.current_role →
        p.current_role ≠ "" ∧ ud.current_role = ""
          ∧ (merge_parsed_into_user p ud).current_role = p.current_role)
    ∧ ((merge_parsed_into_user p ud).summary ≠ ud.summary →
        p.summary ≠ "" ∧ ud.summary = "" ∧ (merge_parsed_into_user p ud).summary = p.summary)
    ∧ ((merge_parsed_into_user p ud).skills ≠ ud.skills →
        p.skills ≠ [] ∧ ud.skills = [] ∧ (merge_parsed_into_user p ud).skills = p.skills)
    ∧ ((merge_parsed_into_user p ud).experience ≠ ud.experience →
        p.experience ≠ [] ∧ ud.experience = []
          ∧ (merge_parsed_into_user p ud).experience = p.experience)
    ∧ ((merge_parsed_into_user p ud).education ≠ ud.education →
        p.education ≠ [] ∧ ud.education = []
          ∧ (merge_parsed_into_user p ud).education = p.education) := by
  refine ⟨?_, ?_, ?_, ?_, ?_, ?_, ?_, ?_, ?_, ?_, ?_, ?_, ?_, ?_, ?_, ?_⟩
  · intro h
    rw [merge_name, if_neg (fun hc => h hc.2)]
  · intro h
    rw [merge_email, if_neg (fun hc => h hc.2)]
  · intro h
    rw [merge_phone, if_neg (fun hc => h hc.2)]
  · intro h
    rw [merge_current_role, if_neg (fun hc => h hc.2)]
  · intro h
    rw [merge_summary, if_neg (fun hc => h hc.2)]
  · intro h
    rw [merge_skills, if_neg (fun hc => h hc.2)]
  · intro h
    rw [merge_experience, if_neg (fun hc => h hc.2)]
  · intro h
    rw [merge_education, if_neg (fun hc => h hc.2)]
  · intro h
    rw [merge_name] at h ⊢
    by_cases hc : p.name ≠ "" ∧ ud.name = ""
    · rw [if_pos hc]
      exact ⟨hc.1, hc.2, rfl⟩
    · rw [if_neg hc] at h
      exact absurd rfl h
  · intro h
    rw [merge_email] at h ⊢
    by_cases hc : p.email ≠ "" ∧ ud.email = ""
    · rw [if_pos hc]
      exact ⟨hc.1, hc.2, rfl⟩
    · rw [if_neg hc] at h
      exact absurd rfl h
  · intro h
    rw [merge_phone] at h ⊢
    by_cases hc : p.phone ≠ "" ∧ ud.phone = ""
    · rw [if_pos hc]
      exact ⟨hc.1, hc.2, rfl⟩
    · rw [if_neg hc] at h
      exact absurd rfl h
  · intro h
    rw [merge_current_role] at h ⊢
    by_cases hc : p.current_role ≠ "" ∧ ud.current_role = ""
    · rw [if_pos hc]
      exact ⟨hc.1, hc.2, rfl⟩
    · rw [if_neg hc] at h
      exact absurd rfl h
  · intro h
    rw [merge_summary] at h ⊢
    by_cases hc : p.summary ≠ "" ∧ ud.summary = ""
    · rw [if_pos hc]
      exact ⟨hc.1, hc.2, rfl⟩
    · rw [if_neg hc] at h
      exact absurd rfl h
  · intro h
    rw [merge_skills] at h ⊢
    by_cases hc : p.skills ≠ [] ∧ ud.skills = []
    · rw [if_pos hc]
      exact ⟨hc.1, hc.2, rfl⟩
    · rw [if_neg hc] at h
      exact absurd rfl h
  · intro h
    rw [merge_experience] at h ⊢
    by_cases hc : p.experience ≠ [] ∧ ud.experience = []
    · rw [if_pos hc]
      exact ⟨hc.1, hc.2, rfl⟩
    · rw [if_neg hc] at h
      exact absurd rfl h
  · intro h
    rw [merge_education] at h ⊢
    by_cases hc : p.education ≠ [] ∧ ud.education = []
    · rw [if_pos hc]
      exact ⟨hc.1, hc.2, rfl⟩
    · rw [if_neg hc] at h
      exact absurd rfl h

/-- C3 witness: the frame statement applied at a concrete parsed record and a
target whose name is already filled: the nonempty name survives, and the empty
email is filled from the parsed record. -/
theorem C3_witness :
    (merge_parsed_into_user { emptyParsed with name := "P", email := "p@x.org" }
      { name := "U" }).name = "U"
    ∧ (merge_parsed_into_user { emptyParsed with name := "P", email := "p@x.org" }
      { name := "U" }).email = "p@x.org" := by
  constructor
  · exact (C3_merge_frame { emptyParsed with name := "P", email := "p@x.org" }
      { name := "U" }).1 (by decide)
  · have h := (C3_merge_frame { emptyParsed with name := "P", email := "p@x.org" }
      { name := "U" }).2.2.2.2.2.2.2.2.2.1
    by_cases hm : (merge_parsed_into_user { emptyParsed with name := "P", email := "p@x.org" }
        { name := "U" }).email = ({ name := "U" } : UserData).email
    · rw [hm]
      exact absurd (hm.trans rfl) (by decide)
    · exact (h hm).2.2

/-- C4 counterexample: a direct upload named x.json whose content is not valid JSON
makes the export path raise internally; the failure surfaces as the UI warning (the
second component is some), while the returned record carries no _error field and is
just the empty defaults - contradicting the claim that every internal failure is
captured as an _error field on the returned result. -/
theorem C4_counterexample :
    (parse_linkedin_export ⟨"x.json", .textBytes "not json"⟩).2.isSome = true
    ∧ (parse_linkedin_export ⟨"x.json", .textBytes "not json"⟩).1.err = none
    ∧ (parse_linkedin_export ⟨"x.json", .textBytes "not json"⟩).1 = emptyParsed :=
  ⟨rfl, rfl, rfl⟩

/-- C4 (amended): neither normalizer path raises to its caller, and the data
recovered before an internal failure is still returned. The export path never sets
an _error field on any input: when its try block raises, the returned record is
exactly the one populated up to the exception (with the post-try skill inference
applied) and the failure surfaces only as the warning message beside it, as a
contact CSV's email surviving a later member's empty-frame iloc failure shows
concretely. The scraped-page path captures every failure as an _error field on the
result: before any recovery with the empty-shaped defaults (invalid URL, request
exception, non-200 status), and after a partial scrape with every field populated
before the failing step, as the skill-step failure case states; a fully completed
scrape carries all recovered fields and no _error. -/
theorem C4_amended :
    (∀ u : Uploaded, (parse_linkedin_export u).1.err = none)
    ∧ (∀ nm members p e, pyEndsWith (pyLower nm) ".zip" = true →
        zipPath members emptyParsed = .error (p, e) →
        parse_linkedin_export ⟨ nm, .zipBytes members⟩
          = (applySkillFallback p, some ("Could not fully parse LinkedIn export: " ++ e)))
    ∧ parse_linkedin_export ⟨ "export.zip", .zipBytes
          [⟨ "Connections.csv", "Email Address\na@b.c"⟩, ⟨ "Profile.csv", "Headline"⟩]⟩
        = ({ emptyParsed with email := "a@b.c" },
           some "Could not fully parse LinkedIn export: single positional indexer is out-of-bounds")
    ∧ fetch_public_linkedin .badUrl = { emptyParsed with err := some "Invalid URL" }
    ∧ (∀ m, fetch_public_linkedin (.requestError m) = { emptyParsed with err := some m })
    ∧ (∀ st doc, st ≠ 200 → fetch_public_linkedin (.response st doc)
        = { emptyParsed with err := some ("Could not fetch page (status " ++ natToStr st ++ ")") })
    ∧ (∀ doc nm hd ab e, doc.soupErr = none → doc.nameStep = .ok nm →
        doc.headlineStep = .ok hd → doc.aboutStep = .ok ab → doc.skillStep = .error e →
        fetch_public_linkedin (.response 200 doc)
          = { emptyParsed with
              name := nm.getD "",
              current_role := hd.getD "",
              summary := ab.getD "",
              err := some e })
    ∧ (∀ doc nm hd ab sk ex ed, doc.soupErr = none → doc.nameStep = .ok nm →
        doc.headlineStep = .ok hd → doc.aboutStep = .ok ab → doc.skillStep = .ok sk →
        doc.expStep = .ok ex → doc.eduStep = .ok ed →
        fetch_public_linkedin (.response 200 doc)
          = { emptyParsed with
              name := nm.getD "",
              current_role := hd.getD "",
              summary := ab.getD "",
              skills := (sk.take 20).filter (fun s => s ≠ ""),
              experience := (ex.take 10).map (fun (w : ScrapedExp) =>
                ⟨w.title.getD "", w.company.getD "", w.duration.getD "",
                  w.description.getD ""⟩),
              education := (ed.take 10).map (fun (w : ScrapedEdu) =>
                ⟨w.degree.getD "", w.institution.getD "", w.year.getD ""⟩) }) := by
  refine ⟨parse_linkedin_export_err, ?_, rfl, rfl, fun m => rfl, ?_, ?_, ?_⟩
  · intro nm members p e hzip hbody
    simp only [parse_linkedin_export, hzip, if_true, hbody]
  · intro st doc hst
    simp only [fetch_public_linkedin]
    rw [if_pos hst]
  · intro doc nm hd ab e hs h1 h2 h3 h4
    simp only [fetch_public_linkedin, hs, h1, h2, h3, h4]
    rw [if_neg (by simp : ¬(200 : Nat) ≠ 200)]
  · intro doc nm hd ab sk ex ed hs h1 h2 h3 h4 h5 h6
    simp only [fetch_public_linkedin, hs, h1, h2, h3, h4, h5, h6]
    rw [if_neg (by simp : ¬(200 : Nat) ≠ 200)]

/-- C4 witness: the amended statement applied concretely. A one-member zip whose
contact CSV has a header but no rows raises inside the try block and comes back as
the defaults plus the warning; a 404 page fetch fails before recovery; a skill-step
failure after the name was scraped returns the name together with the _error text;
a fully completed scrape returns every recovered field with no _error. -/
theorem C4_witness :
    parse_linkedin_export ⟨ "a.zip", .zipBytes [⟨ "c.csv", "Headline"⟩]⟩
      = (emptyParsed,
         some "Could not fully parse LinkedIn export: single positional indexer is out-of-bounds")
    ∧ fetch_public_linkedin
        (.response 404 ⟨none, .ok none, .ok none, .ok none, .ok [], .ok [], .ok []⟩)
      = { emptyParsed with err := some "Could not fetch page (status 404)" }
    ∧ fetch_public_linkedin
        (.response 200 ⟨none, .ok (some "Ada"), .ok none, .ok none, .error "boom", .ok [], .ok []⟩)
      = { emptyParsed with name := "Ada", err := some "boom" }
    ∧ fetch_public_linkedin (.response 200
        ⟨none, .ok (some "Ada"), .ok (some "Eng"), .ok (some "Bio"), .ok ["Lean"], .ok [], .ok []⟩)
      = { emptyParsed with
          name := "Ada",
          current_role := "Eng",
          summary := "Bio",
          skills := ["Lean"] } := by
  refine ⟨?_, ?_, ?_, ?_⟩
  · rw [C4_amended.2.1 "a.zip" [⟨ "c.csv", "Headline"⟩] emptyParsed
        "single positional indexer is out-of-bounds" rfl rfl]
    rfl
  · rw [C4_amended.2.2.2.2.2.1 404
        ⟨none, .ok none, .ok none, .ok none, .ok [], .ok [], .ok []⟩ (by decide)]
    rfl
  · rw [C4_amended.2.2.2.2.2.2.1
        ⟨none, .ok (some "Ada"), .ok none, .ok none, .error "boom", .ok [], .ok []⟩
        (some "Ada") none none "boom" rfl rfl rfl rfl rfl]
    rfl
  · rw [C4_amended.2.2.2.2.2.2.2
        ⟨none, .ok (some "Ada"), .ok (some "Eng"), .ok (some "Bio"), .ok ["Lean"], .ok [], .ok []⟩
        (some "Ada") (some "Eng") (some "Bio") ["Lean"] [] []
        rfl rfl rfl rfl rfl rfl rfl]
    rfl

/-- C5 counterexample: the sentinel is not distinct from every other error message.
A non-connection failure whose exception text happens to read Could not connect to
Ollama. Make sure Ollama is running. produces exactly the connection sentinel. -/
theorem C5_counterexample :
    query_ollama (.raised "Could not connect to Ollama. Make sure Ollama is running.")
      = Json.str ollamaConnectMsg := rfl

/-- C5 (amended): query_ollama never raises outward; on a connection error it
returns the fixed sentinel; on any other failure it returns Error: followed by the
underlying error text, which coincides with the sentinel exactly when that text is
the sentinel's own suffix; on success it returns the response field of the decoded
reply object, or the empty string when the field is absent. -/
theorem C5_amended :
    query_ollama .connectionError = Json.str ollamaConnectMsg
    ∧ (∀ m, query_ollama (.raised m) = Json.str ("Error: " ++ m))
    ∧ (∀ m body, query_ollama (.reply (some m) body) = Json.str ("Error: " ++ m))
    ∧ (∀ m, query_ollama (.reply none (.error m)) = Json.str ("Error: " ++ m))
    ∧ (∀ kvs v, jget kvs "response" = some v →
        query_ollama (.reply none (.ok (Json.obj kvs))) = v)
    ∧ (∀ kvs, jget kvs "response" = none →
        query_ollama (.reply none (.ok (Json.obj kvs))) = Json.str "")
    ∧ (∀ m, Json.str ("Error: " ++ m) = Json.str ollamaConnectMsg
        ↔ m = "Could not connect to Ollama. Make sure Ollama is running.") := by
  refine ⟨rfl, fun m => rfl, fun m body => rfl, fun m => rfl, ?_, ?_, ?_⟩
  · intro kvs v h
    simp only [query_ollama]
    rw [h]
    rfl
  · intro kvs h
    simp only [query_ollama]
    rw [h]
    rfl
  · intro m
    constructor
    · intro h
      have hs : "Error: " ++ m = ollamaConnectMsg := by
        injection h
      have hd : "Error: ".data ++ m.data
          = "Error: ".data ++ "Could not connect to Ollama. Make sure Ollama is running.".data := by
        have := congrArg String.data hs
        rw [String.data_append] at this
        exact this
      exact String.ext (List.append_cancel_left hd)
    · intro h
      rw [h]
      rfl

/-- C5 witness: the amended statement applied at a reply carrying a response field
and at a reply without one. -/
theorem C5_witness :
    query_ollama (.reply none (.ok (Json.obj [("response", Json.str "hi")]))) = Json.str "hi"
    ∧ query_ollama (.reply none (.ok (Json.obj [("done", Json.bool true)]))) = Json.str "" :=
  ⟨C5_amended.2.2.2.2.1 [("response", Json.str "hi")] (Json.str "hi") rfl,
    C5_amended.2.2.2.2.2.1 [("done", Json.bool true)] rfl⟩

/-- C6 counterexample: for the raw output 42 there is no bracketed substring and
the fence-stripped remainder is not a valid JSON array, yet the extractor does not
return the original list or signal a failure: it returns the decoded number. -/
theorem C6_counterexample :
    tailor_resume_experience (Json.arr [Json.obj []]) "42" = (Json.num 42, none)
    ∧ Json.num 42 ≠ Json.arr [Json.obj []] :=
  ⟨rfl, by simp⟩

/-- C6 (amended): for every raw output with no bracketed substring whose
fence-stripped remainder does not decode as JSON at all, the extractor returns the
caller-supplied original list unchanged and signals the failure with the decode
error and the raw text. -/
theorem C6_amended (expList : Json) (response : String) (e : String)
    (hnb : bracketSlice response.data = none)
    (hdec : jsonLoadsL (pyStrip
        ⟨removeAll "```".data (removeAll "```json".data response.data)⟩).data = .error e) :
    tailor_resume_experience expList response = (expList, some (e, response)) := by
  unfold tailor_resume_experience
  simp only [hnb, hdec]

/-- C6 witness: the amended statement applied at the raw output hello, which has no
brackets and is not JSON. -/
theorem C6_witness :
    tailor_resume_experience (Json.arr []) "hello"
      = (Json.arr [], some ("Expecting value", "hello")) :=
  C6_amended (Json.arr []) "hello" "Expecting value" rfl rfl

/-- C7: in the experience-row mapping, the duration is formed as start - end with
leading and trailing separator characters trimmed; in particular start 2019 and
empty end give exactly 2019, two empty parts give the empty string, and a bundled
positions file without end-date columns yields that trimmed duration. -/
theorem C7_duration :
    (∀ (t : Table) (row : List String),
      (expRowOf t row).duration = pyStripChars [' ', '-']
        (cellOr t row ["Start Date", "Start"] ++ " - " ++ cellOr t row ["End Date", "End"]))
    ∧ formDuration "2019" "" = "2019"
    ∧ formDuration "" "" = ""
    ∧ (parse_linkedin_export ⟨"Export.zip", .zipBytes
        [⟨"Positions.csv", "Title,Company,Start Date\nDev,Acme,2019"⟩]⟩).1.experience
        = [⟨"Dev", "Acme", "2019", ""⟩] :=
  ⟨fun _ _ => rfl, rfl, rfl, rfl⟩

/-- C8: when no skills were recovered and a summary is present, the normalizer
replaces the skills with the summary split on commas, semicolons and newlines,
trimmed, filtered to fragments under 40 characters and capped at 12; the given
summary yields exactly Python, Leadership, Go with the long fragment excluded. -/
theorem C8_skill_inference :
    (∀ p : Parsed, p.skills = [] → p.summary ≠ "" →
      applySkillFallback p = { p with skills := inferSkills p.summary })
    ∧ inferSkills
        "Python, Leadership, A very very long phrase exceeding forty characters total length, Go"
        = ["Python", "Leadership", "Go"]
    ∧ (parse_linkedin_export ⟨"p.json", .textBytes
        "\x7b\"summary\": \"Python, Leadership, A very very long phrase exceeding forty characters total length, Go\"\x7d"⟩).1.skills
        = ["Python", "Leadership", "Go"] := by
  refine ⟨?_, rfl, rfl⟩
  intro p h1 h2
  unfold applySkillFallback
  rw [if_pos]
  simp [h1, h2]

/-- C8 witness: the gated statement applied at a record with an empty skills list
and the one-token summary Go. -/
theorem C8_witness :
    applySkillFallback { emptyParsed with summary := "Go" }
      = { emptyParsed with summary := "Go", skills := ["Go"] } := by
  rw [C8_skill_inference.1 { emptyParsed with summary := "Go" } rfl (by decide)]
  rfl

/-- C9 counterexample: the skill-inference fallback does not always retain empty
fragments. A summary of twelve one-letter fragments followed by two consecutive
commas produces empty fragments, but the cap of 12 cuts them off, so no
empty-string entry remains - refuting the claim for this summary with consecutive
delimiters and a trailing comma. -/
theorem C9_counterexample :
    inferSkills "a,b,c,d,e,f,g,h,i,j,k,l,,"
      = ["a", "b", "c", "d", "e", "f", "g", "h", "i", "j", "k", "l"]
    ∧ "" ∉ inferSkills "a,b,c,d,e,f,g,h,i,j,k,l,,"
    ∧ (applySkillFallback { emptyParsed with summary := "a,b,c,d,e,f,g,h,i,j,k,l,," }).skills
        = ["a", "b", "c", "d", "e", "f", "g", "h", "i", "j", "k", "l"] :=
  ⟨rfl, by decide, rfl⟩

/-- C9 (amended): the length filter keeps the empty fragment, so empty-string
entries appear whenever an empty fragment falls within the first twelve kept
fragments: for every summary of the form a ++ ",," ++ b with a and b free of
delimiters and no skills otherwise recovered, the inferred skills contain the
empty string. -/
theorem C9_amended (p : Parsed) (a b : String)
    (hsum : p.summary = a ++ ",," ++ b) (hsk : p.skills = [])
    (ha : ∀ c ∈ a.data, c ∉ ([',', '\n', ';'] : List Char))
    (hb : ∀ c ∈ b.data, c ∉ ([',', '\n', ';'] : List Char)) :
    "" ∈ (applySkillFallback p).skills := by
  have hne : p.summary ≠ "" := by
    rw [hsum]
    simp [String.ext_iff, String.data_append]
  unfold applySkillFallback
  rw [if_pos (by simp [hsk, hne])]
  rw [show ({ p with skills := inferSkills p.summary } : Parsed).skills
    = inferSkills p.summary from rfl, hsum]
  exact inferSkills_keeps_empty a b ha hb

/-- C9 witness: the amended statement applied at the summary x,,y. -/
theorem C9_witness :
    "" ∈ (applySkillFallback { emptyParsed with summary := "x,,y" }).skills :=
  C9_amended { emptyParsed with summary := "x,,y" } "x" "y" rfl rfl (by decide) (by decide)

/-- C10: the fence-stripping fallback does not check that the decoded value is an
array: for the raw output that is a fenced quoted string with no brackets anywhere,
the extractor returns the decoded string itself - not a list of records and not
the original experience list. -/
theorem C10_nonarray_passthrough :
    tailor_resume_experience (Json.arr [Json.obj []]) "```json\n\"hello\"\n```"
      = (Json.str "hello", none)
    ∧ ('[' ∉ "```json\n\"hello\"\n```".data ∧ ']' ∉ "```json\n\"hello\"\n```".data)
    ∧ (∀ xs, Json.str "hello" ≠ Json.arr xs)
    ∧ Json.str "hello" ≠ Json.arr [Json.obj []] :=
  ⟨rfl, by decide, fun xs => by simp, by simp⟩
